import Mathlib

/-!
Verification of the periodic ingestion-and-derivation pipeline of The-Watcher.

The Python sources are shallowly embedded as executable Lean definitions:

* pure functions become Lean functions over `List Char`, `Nat`, `Int` and `ℚ`;
* datetimes are modelled as integer (or rational) second counts;
* the relational store is modelled as explicit record lists threaded through
  the state-passing versions of the task functions;
* Python exceptions become `Except` values;
* YAML documents (alert rules) are modelled by an inductive value type, and
  the outcome of `yaml.safe_load` is passed in as an explicit parameter.

Each embedded definition names the Python function it translates.
-/

namespace Watcher

/-! ## Gematria engine (`app/services/gematria`) -/

/-- Python `dict.get(key)` on an association list keyed by strings. -/
def dictGet? (d : List (String × Nat)) (k : String) : Option Nat :=
  (d.find? (fun p => p.1 = k)).map (fun p => p.2)

/-- Python `d[k] = v` on an association list whose keys are unique:
replace the first binding of `k` in place, else append. -/
def dictInsert (d : List (String × Nat)) (k : String) (v : Nat) : List (String × Nat) :=
  match d with
  | [] => [(k, v)]
  | p :: ps => if p.1 = k then (k, v) :: ps else p :: dictInsert ps k v

/-- Keep exactly the characters `A`–`Z` (the default `ignore_pattern` is
`[^A-Z]`, i.e. everything else is stripped). -/
def isAZ (c : Char) : Bool := ('A' ≤ c) && (c ≤ 'Z')

/-- `normalize(text)` from `app/services/gematria/__init__.py`: uppercase the
text and strip every character matching the default ignore pattern `[^A-Z]`.
(Python `str.upper` is modelled character-wise, which agrees with it on the
ASCII titles the scheme tables cover.) -/
def normalize (text : String) : String :=
  String.mk ((text.data.map Char.toUpper).filter isAZ)

/-- `_alphabet_mapping(values)` from `app/services/gematria/schemes.py`:
the dict `{A ↦ values[0], …, Z ↦ values[25]}`, with `mapping.get(ch, 0)`
semantics (characters outside the table contribute 0). -/
def alphabetMapping (values : List Nat) (c : Char) : Nat :=
  if isAZ c then values.getD (c.toNat - 'A'.toNat) 0 else 0

def englishSumerianMapping : Char → Nat :=
  alphabetMapping ((List.range 26).map (fun i => 6 * (i + 1)))

def simpleMapping : Char → Nat :=
  alphabetMapping ((List.range 26).map (fun i => i + 1))

def unknownMapping : Char → Nat :=
  alphabetMapping ((List.range 26).map (fun i => 99 + i))

def pythagorasMapping : Char → Nat :=
  alphabetMapping [1, 2, 3, 4, 5, 6, 7, 8, 9, 1, 11, 3, 4, 5, 6, 7, 8, 9, 10, 2, 3, 22, 5, 6, 7, 8]

def jewishMapping : Char → Nat :=
  alphabetMapping [1, 2, 3, 4, 5, 6, 7, 8, 9, 600, 10, 20, 30, 40, 50, 60, 70, 80, 90,
    100, 200, 700, 900, 300, 400, 500]

def primeMapping : Char → Nat :=
  alphabetMapping [2, 3, 5, 7, 11, 13, 17, 19, 23, 29, 31, 37, 41, 43, 47, 53, 59, 61,
    67, 71, 73, 79, 83, 89, 97, 101]

def reverseSatanicMapping : Char → Nat :=
  alphabetMapping ((List.range 26).map (fun i => 61 - i))

def clockMapping : Char → Nat :=
  alphabetMapping [1, 2, 3, 4, 5, 6, 7, 8, 9, 10, 11, 12, 1, 2, 3, 4, 5, 6, 7, 8, 9, 10, 11, 12, 1, 2]

def reverseClockMapping : Char → Nat :=
  alphabetMapping [2, 1, 12, 11, 10, 9, 8, 7, 6, 5, 4, 3, 2, 1, 12, 11, 10, 9, 8, 7, 6, 5, 4, 3, 2, 1]

def system9Mapping : Char → Nat :=
  alphabetMapping ((List.range 26).map (fun i => 9 * (i + 1)))

/-- `SCHEMES` from `app/services/gematria/schemes.py`: the registry of
letter-to-value tables, in definition order. -/
def SCHEMES : List (String × (Char → Nat)) :=
  [("english_sumerian", englishSumerianMapping),
   ("simple", simpleMapping),
   ("unknown", unknownMapping),
   ("pythagoras", pythagorasMapping),
   ("jewish", jewishMapping),
   ("prime", primeMapping),
   ("reverse_satanic", reverseSatanicMapping),
   ("clock", clockMapping),
   ("reverse_clock", reverseClockMapping),
   ("system9", system9Mapping)]

/-- `SCHEMES.get(name)`. -/
def lookupScheme (name : String) : Option (Char → Nat) :=
  (SCHEMES.find? (fun p => p.1 = name)).map (fun p => p.2)

/-- `sum(mapping.get(ch, 0) for ch in normalized)`. -/
def schemeSum (mapping : Char → Nat) (normalized : String) : Nat :=
  (normalized.data.map mapping).sum

/-- `compute_all(text, schemes)` from `app/services/gematria/__init__.py`
(with the default ignore pattern): normalize once, then for each requested
scheme that exists in the registry record the per-character sum; names
absent from the registry are skipped. -/
def compute_all (text : String) (schemes : List String) : List (String × Nat) :=
  let normalized := normalize text
  schemes.foldl
    (fun acc name =>
      match lookupScheme name with
      | none => acc
      | some mapping => dictInsert acc name (schemeSum mapping normalized))
    []

lemma dictGet_cons (p : String × Nat) (ps : List (String × Nat)) (k' : String) :
    dictGet? (p :: ps) k' = if p.1 = k' then some p.2 else dictGet? ps k' := by
  by_cases h : p.1 = k' <;> simp [dictGet?, List.find?, h]

lemma dictGet_insert (d : List (String × Nat)) (k k' : String) (v : Nat) :
    dictGet? (dictInsert d k v) k' = if k' = k then some v else dictGet? d k' := by
  induction d with
  | nil =>
    show dictGet? [(k, v)] k' = _
    rw [dictGet_cons]
    by_cases h : k' = k
    · simp [h]
    · have h' : ¬ ((k, v).1 = k') := fun hk => h hk.symm
      simp [h, h', dictGet?]
  | cons p ps ih =>
    by_cases hpk : p.1 = k
    · have hd : dictInsert (p :: ps) k v = (k, v) :: ps := by simp [dictInsert, hpk]
      rw [hd, dictGet_cons]
      by_cases h : k' = k
      · simp [h]
      · have h' : ¬ ((k, v).1 = k') := fun hk => h hk.symm
        rw [if_neg h', if_neg h, dictGet_cons]
        have hp' : ¬ (p.1 = k') := by rw [hpk]; exact fun hk => h hk.symm
        rw [if_neg hp']
    · have hd : dictInsert (p :: ps) k v = p :: dictInsert ps k v := by
        simp [dictInsert, hpk]
      rw [hd, dictGet_cons, ih, dictGet_cons]
      by_cases hp' : p.1 = k'
      · have hk' : ¬ (k' = k) := fun h => hpk (by rw [hp', h])
        simp [hp', hk']
      · simp [hp']

lemma computeAll_loop_get (normalized : String) (schemes : List String)
    (acc : List (String × Nat)) (name : String) :
    dictGet? (schemes.foldl
      (fun acc name =>
        match lookupScheme name with
        | none => acc
        | some mapping => dictInsert acc name (schemeSum mapping normalized))
      acc) name =
    if name ∈ schemes ∧ (lookupScheme name).isSome
    then (lookupScheme name).map (fun m => schemeSum m normalized)
    else dictGet? acc name := by
  induction schemes generalizing acc with
  | nil => simp
  | cons h t ih =>
    simp only [List.foldl_cons]
    cases hl : lookupScheme h with
    | none =>
      rw [ih]
      by_cases hn : name = h
      · subst hn; simp [hl]
      · simp [List.mem_cons, hn]
    | some m =>
      rw [ih, dictGet_insert]
      by_cases hn : name = h
      · subst hn
        simp [hl, List.mem_cons]
      · simp [List.mem_cons, hn]

lemma compute_all_get (text : String) (schemes : List String) (name : String) :
    dictGet? (compute_all text schemes) name =
    if name ∈ schemes ∧ (lookupScheme name).isSome
    then (lookupScheme name).map (fun m => schemeSum m (normalize text))
    else none := by
  unfold compute_all
  rw [computeAll_loop_get]
  rfl

/-- C9, counterexample: the scheme registry (`SCHEME_DEFINITIONS` in
`app/services/gematria/schemes.py`) contains no scheme named `ordinal` (the
ordinal table is registered as `simple`), so `compute_all` on the requested
scheme list `["ordinal"]` skips the unknown name and returns the empty map,
not `{"ordinal": 24}` as the claim states. -/
theorem compute_all_ordinal_counterexample :
    compute_all "CAT" ["ordinal"] = [] ∧
    compute_all "CAT" ["ordinal"] ≠ [("ordinal", 24)] := by
  exact ⟨rfl, by decide⟩

/-- C9, amended: `compute_all` normalizes the text once and, for each
requested scheme name that exists in the registry, returns the sum of
per-character values of that scheme mapping (characters absent from the
mapping contribute 0); requested names absent from the registry are omitted
from the result.  In particular `compute_all "CAT" ["simple"] = {"simple": 24}`
(the ordinal table is registered under the name `simple`), and for every
registered scheme the empty string computes to 0. -/
theorem compute_all_spec :
    (∀ (text : String) (schemes : List String) (name : String),
        dictGet? (compute_all text schemes) name =
          if name ∈ schemes ∧ (lookupScheme name).isSome
          then (lookupScheme name).map (fun m => schemeSum m (normalize text))
          else none)
    ∧ compute_all "CAT" ["simple"] = [("simple", 24)]
    ∧ (∀ (name : String) (m : Char → Nat),
        lookupScheme name = some m → compute_all "" [name] = [(name, 0)]) := by
  refine ⟨compute_all_get, by decide, ?_⟩
  intro name m hm
  simp [compute_all, normalize, hm, schemeSum, dictInsert]

/-- Witness for `compute_all_spec`: instantiated at the `simple` scheme. -/
theorem compute_all_spec_witness :
    compute_all "" ["simple"] = [("simple", 0)] :=
  compute_all_spec.2.2 "simple" simpleMapping rfl

/-! ## Persistent records (`app/models`, datetimes as integer seconds) -/

structure ItemRec where
  id : Nat
  source_id : Nat
  fetched_at : Int
  published_at : Option Int
  url : String
  title : Option String
  lang : Option String
  dedupe_hash : Option String
deriving DecidableEq, Repr

structure GemRow where
  item_id : Nat
  scheme : String
  value : Nat
  token_count : Nat
  normalized_title : String
deriving DecidableEq, Repr

structure SourceRec where
  id : Nat
  name : String
  type : String
  endpoint : String
  enabled : Bool
  interval_sec : Option Int
  priority : Option Int
  auto_discovered : Bool
  discovered_at : Option Int
  last_run_at : Option Int
  last_checked_at : Option Int
  last_status : Option String
  last_error : Option String
  last_duration_ms : Option Int
  last_item_count : Option Nat
  consecutive_failures : Option Nat
deriving DecidableEq, Repr

structure CrawlerRunRec where
  source_id : Nat
  started_at : Int
  finished_at : Int
  status : String
  items_fetched : Nat
  duration_ms : Option Int
  error : Option String
deriving DecidableEq, Repr

/-- `FeedEntry` from `app/services/ingest/rss.py`; `dedupe_hash` is the
content fingerprint computed there (`sha256(title + link)`), carried as an
opaque string. -/
structure FeedEntry where
  title : String
  url : String
  published_at : Option Int
  dedupe_hash : String
deriving DecidableEq, Repr

/-- `FeedFetchResult` from `app/services/ingest/rss.py` (cache headers are
not consumed by `run_source` and are omitted). -/
structure FeedFetchResult where
  entries : List FeedEntry
  discovered_feeds : List String
deriving DecidableEq, Repr

/-- The relational store threaded through the task functions. -/
structure DB where
  sources : List SourceRec
  items : List ItemRec
  gem : List GemRow
  runs : List CrawlerRunRec
  nextItemId : Nat
  nextSourceId : Nat
deriving DecidableEq, Repr

/-! ## `compute_gematria_for_item` (`app/tasks/ingest.py`) -/

/-- Python `list(dict.fromkeys(lst))`: first-occurrence deduplication that
preserves order. -/
def pyDedup {κ : Type} [DecidableEq κ] : List κ → List κ
  | [] => []
  | s :: rest => s :: (pyDedup rest).filter (fun x => x ≠ s)

lemma pyDedup_mem {κ : Type} [DecidableEq κ] (l : List κ) (s : κ) :
    s ∈ pyDedup l ↔ s ∈ l := by
  induction l with
  | nil => simp [pyDedup]
  | cons a rest ih =>
    by_cases h : s = a
    · simp [pyDedup, h]
    · simp [pyDedup, List.mem_filter, ih, h]

lemma pyDedup_nodup {κ : Type} [DecidableEq κ] (l : List κ) : (pyDedup l).Nodup := by
  induction l with
  | nil => simp [pyDedup]
  | cons a rest ih =>
    refine List.nodup_cons.2 ⟨?_, ih.filter _⟩
    simp [List.mem_filter]

/-- Python `str.split()` (whitespace tokenization, used only for
`token_count`). -/
def pySplitAux : List Char → List Char → List String
  | [], cur => if cur.isEmpty then [] else [String.mk cur.reverse]
  | c :: rest, cur =>
    if c.isWhitespace then
      if cur.isEmpty then pySplitAux rest []
      else String.mk cur.reverse :: pySplitAux rest []
    else pySplitAux rest (c :: cur)

def pySplit (s : String) : List String := pySplitAux s.data []

/-- The schemes stored for item `i` in gematria table `l` (the loop
`session.query(Gematria).filter(Gematria.item_id == item.id)`, projected to
the scheme column). -/
def schemesOf (i : Nat) (l : List GemRow) : List String :=
  (l.filter (fun r => r.item_id = i)).map (fun r => r.scheme)

/-- A fresh `Gematria(...)` row as constructed by
`compute_gematria_for_item`. -/
def gemRowFor (itId : Nat) (values : List (String × Nat)) (tokenCount : Nat)
    (normalized : String) (s : String) : GemRow :=
  { item_id := itId,
    scheme := s,
    value := (dictGet? values s).getD 0,
    token_count := tokenCount,
    normalized_title := normalized }

/-- The update/delete pass of `compute_gematria_for_item`: rows of the item
whose scheme is enabled are assigned the new value, token count and
normalized title; rows of the item whose scheme is not enabled are deleted
(`session.delete(row)`); rows of other items are untouched. -/
def gemUpdated (itId : Nat) (enabled : List String) (values : List (String × Nat))
    (tokenCount : Nat) (normalized : String) (gem : List GemRow) : List GemRow :=
  gem.filterMap (fun r =>
    if r.item_id = itId then
      if r.scheme ∈ enabled then
        some { r with
               value := (dictGet? values r.scheme).getD 0,
               token_count := tokenCount,
               normalized_title := normalized }
      else none
    else some r)

/-- The insert pass of `compute_gematria_for_item`: a new row for every
enabled scheme that had no existing row. -/
def gemInserted (itId : Nat) (enabled existingSchemes : List String)
    (values : List (String × Nat)) (tokenCount : Nat) (normalized : String) : List GemRow :=
  (enabled.filter (fun s => s ∉ existingSchemes)).map (gemRowFor itId values tokenCount normalized)

/-- `compute_gematria_for_item` from `app/tasks/ingest.py`, as a transition
on the gematria table.  `item` is `session.get(Item, item_id)`; `enabledRaw`
is the `enabled_schemes` list read from the gematria settings (the source
deduplicates it via `dict.fromkeys`).  Returns the new gematria table and
the computed scheme map. -/
def compute_gematria_for_item (item : Option ItemRec) (enabledRaw : List String)
    (gem : List GemRow) : List GemRow × List (String × Nat) :=
  match item with
  | none => (gem, [])
  | some it =>
    match it.title with
    | none => (gem, [])
    | some title =>
      if title = "" then (gem, [])
      else
        let enabled := pyDedup enabledRaw
        let values := compute_all title enabled
        let normalized := normalize title
        let tokenCount := (pySplit title).length
        (gemUpdated it.id enabled values tokenCount normalized gem
           ++ gemInserted it.id enabled (schemesOf it.id gem) values tokenCount normalized,
         enabled.map (fun s => (s, (dictGet? values s).getD 0)))

lemma schemesOf_cons (i : Nat) (r : GemRow) (l : List GemRow) :
    schemesOf i (r :: l) = if r.item_id = i then r.scheme :: schemesOf i l else schemesOf i l := by
  by_cases h : r.item_id = i <;> simp [schemesOf, h]

lemma schemesOf_append (i : Nat) (a b : List GemRow) :
    schemesOf i (a ++ b) = schemesOf i a ++ schemesOf i b := by
  simp [schemesOf, List.filter_append]

lemma schemesOf_gemUpdated (itId : Nat) (enabled : List String)
    (values : List (String × Nat)) (tc : Nat) (n : String) (gem : List GemRow) :
    schemesOf itId (gemUpdated itId enabled values tc n gem) =
      (schemesOf itId gem).filter (fun s => s ∈ enabled) := by
  induction gem with
  | nil => simp [gemUpdated, schemesOf]
  | cons r rest ih =>
    by_cases h1 : r.item_id = itId
    · by_cases h2 : r.scheme ∈ enabled
      · simpa [gemUpdated, List.filterMap_cons, h1, h2, schemesOf_cons, List.filter_cons]
          using ih
      · simpa [gemUpdated, List.filterMap_cons, h1, h2, schemesOf_cons, List.filter_cons]
          using ih
    · simpa [gemUpdated, List.filterMap_cons, h1, schemesOf_cons] using ih

lemma schemesOf_gemInserted (itId : Nat) (enabled ex : List String)
    (values : List (String × Nat)) (tc : Nat) (n : String) :
    schemesOf itId (gemInserted itId enabled ex values tc n) =
      enabled.filter (fun s => s ∉ ex) := by
  induction enabled with
  | nil => simp [gemInserted, schemesOf]
  | cons s rest ih =>
    by_cases h : s ∈ ex
    · simpa [gemInserted, List.filter_cons, h, schemesOf_cons] using ih
    · simpa [gemInserted, List.filter_cons, h, schemesOf_cons, gemRowFor] using ih

lemma gemUpdated_mem_of_ne (itId : Nat) (enabled : List String)
    (values : List (String × Nat)) (tc : Nat) (n : String) (gem : List GemRow)
    (r : GemRow) (hr : r ∈ gemUpdated itId enabled values tc n gem)
    (hne : r.item_id ≠ itId) : r ∈ gem := by
  obtain ⟨a, ha, hfa⟩ := List.mem_filterMap.1 hr
  by_cases h1 : a.item_id = itId
  · by_cases h2 : a.scheme ∈ enabled
    · simp [h1, h2] at hfa
      exact absurd (by rw [← hfa]) hne
    · simp [h1, h2] at hfa
  · simp [h1] at hfa
    exact hfa ▸ ha

lemma mem_gemUpdated_of_ne (itId : Nat) (enabled : List String)
    (values : List (String × Nat)) (tc : Nat) (n : String) (gem : List GemRow)
    (r : GemRow) (hr : r ∈ gem) (hne : r.item_id ≠ itId) :
    r ∈ gemUpdated itId enabled values tc n gem :=
  List.mem_filterMap.2 ⟨r, hr, by simp [hne]⟩

lemma gemInserted_item_id (itId : Nat) (enabled ex : List String)
    (values : List (String × Nat)) (tc : Nat) (n : String) (r : GemRow)
    (hr : r ∈ gemInserted itId enabled ex values tc n) : r.item_id = itId := by
  obtain ⟨s, _, hs⟩ := List.mem_map.1 hr
  rw [← hs]
  rfl

lemma compute_gematria_eq (it : ItemRec) (title : String) (enabledRaw : List String)
    (gem : List GemRow) (ht : it.title = some title) (hne : ¬ title = "") :
    compute_gematria_for_item (some it) enabledRaw gem =
      (gemUpdated it.id (pyDedup enabledRaw) (compute_all title (pyDedup enabledRaw))
          ((pySplit title).length) (normalize title) gem
        ++ gemInserted it.id (pyDedup enabledRaw) (schemesOf it.id gem)
          (compute_all title (pyDedup enabledRaw)) ((pySplit title).length) (normalize title),
       (pyDedup enabledRaw).map
         (fun s => (s, (dictGet? (compute_all title (pyDedup enabledRaw)) s).getD 0))) := by
  simp [compute_gematria_for_item, ht, hne]

/-- C5: after `compute_gematria_for_item` runs for an item with a non-empty
title, the scheme set stored for that item is exactly the enabled scheme set
from Settings (one row per enabled scheme, rows for disabled schemes
deleted), and rows of other items are untouched.  The hypothesis `hnodup`
is the composite primary key (item_id, scheme) of the gematria table. -/
theorem compute_gematria_scheme_set
    (it : ItemRec) (title : String) (enabledRaw : List String) (gem : List GemRow)
    (ht : it.title = some title) (hne : title ≠ "")
    (hnodup : (schemesOf it.id gem).Nodup) :
    (∀ s, s ∈ schemesOf it.id (compute_gematria_for_item (some it) enabledRaw gem).1 ↔
          s ∈ enabledRaw)
    ∧ (schemesOf it.id (compute_gematria_for_item (some it) enabledRaw gem).1).Nodup
    ∧ (∀ r ∈ (compute_gematria_for_item (some it) enabledRaw gem).1,
         r.item_id ≠ it.id → r ∈ gem)
    ∧ (∀ r ∈ gem, r.item_id ≠ it.id →
         r ∈ (compute_gematria_for_item (some it) enabledRaw gem).1) := by
  rw [compute_gematria_eq it title enabledRaw gem ht hne]
  simp only [schemesOf_append, schemesOf_gemUpdated, schemesOf_gemInserted]
  refine ⟨?_, ?_, ?_, ?_⟩
  · intro s
    simp only [List.mem_append, List.mem_filter, ← pyDedup_mem enabledRaw s]
    constructor
    · rintro (⟨_, h⟩ | ⟨h, _⟩)
      · simpa using h
      · exact h
    · intro h
      by_cases hex : s ∈ schemesOf it.id gem
      · exact Or.inl ⟨hex, by simpa using h⟩
      · exact Or.inr ⟨h, by simpa using hex⟩
  · refine List.Nodup.append (hnodup.filter _) ((pyDedup_nodup enabledRaw).filter _) ?_
    intro s hs hs'
    have h1 : s ∈ schemesOf it.id gem := (List.mem_filter.1 hs).1
    have h2 : s ∉ schemesOf it.id gem := by
      simpa using (List.mem_filter.1 hs').2
    exact h2 h1
  · intro r hr hne'
    rcases List.mem_append.1 hr with h | h
    · exact gemUpdated_mem_of_ne _ _ _ _ _ _ _ h hne'
    · exact absurd (gemInserted_item_id _ _ _ _ _ _ _ h) hne'
  · intro r hr hne'
    exact List.mem_append.2 (Or.inl (mem_gemUpdated_of_ne _ _ _ _ _ _ _ hr hne'))

/-- A concrete item used by witnesses. -/
def itemCat : ItemRec :=
  { id := 1, source_id := 1, fetched_at := 0, published_at := none,
    url := "http://example.org/cat", title := some "CAT", lang := none,
    dedupe_hash := some "h1" }

/-- Witness for `compute_gematria_scheme_set`: a concrete item titled `CAT`
with an empty gematria table and enabled schemes `[simple, unknown]`. -/
theorem compute_gematria_scheme_set_witness :
    "simple" ∈ schemesOf 1 (compute_gematria_for_item (some itemCat)
        ["simple", "unknown"] []).1 ↔ "simple" ∈ ["simple", "unknown"] :=
  (compute_gematria_scheme_set itemCat "CAT" ["simple", "unknown"] [] rfl
    (by decide) (by simp [schemesOf])).1 "simple"

/-! ## `run_source` (`app/tasks/ingest.py`) -/

/-- Python string slicing `s[:n]` (by code points). -/
def strTake (s : String) (n : Nat) : String := String.mk (s.data.take n)

/-- `session.query(Item).filter_by(dedupe_hash=h).first() is not None`. -/
def hasHash (db : DB) (h : String) : Bool :=
  db.items.any (fun it => it.dedupe_hash = some h)

/-- The per-entry body of the loop in `run_source` (steps 4 of the Ingestion
Cycle): skip the entry if an item with the same dedupe hash exists, else
insert the item, flush (here: allocate its id) and synchronously compute and
persist its gematria rows, incrementing the new-item counter. -/
def ingestEntry (enabledRaw : List String) (sid : Nat) (now : Int)
    (st : DB × Nat) (entry : FeedEntry) : DB × Nat :=
  if hasHash st.1 entry.dedupe_hash then st
  else
    let db := st.1
    let item : ItemRec :=
      { id := db.nextItemId, source_id := sid, fetched_at := now,
        published_at := entry.published_at, url := entry.url,
        title := some entry.title, lang := none,
        dedupe_hash := some entry.dedupe_hash }
    let db1 := { db with items := db.items ++ [item], nextItemId := db.nextItemId + 1 }
    ({ db1 with gem := (compute_gematria_for_item (some item) enabledRaw db1.gem).1 }, st.2 + 1)

def processEntries (db : DB) (sid : Nat) (enabledRaw : List String) (now : Int)
    (entries : List FeedEntry) : DB × Nat :=
  entries.foldl (ingestEntry enabledRaw sid now) (db, 0)

/-- A disabled, auto-discovered `Source(...)` row as created by
`_apply_discovered_feeds` (the derived display name is presentation-only and
modelled by the URL itself). -/
def discoveredSource (source : SourceRec) (feedUrl : String) (sid : Nat) (now : Int) :
    SourceRec :=
  { id := sid, name := feedUrl, type := "rss", endpoint := feedUrl,
    enabled := false, interval_sec := source.interval_sec, priority := none,
    auto_discovered := true, discovered_at := some now,
    last_run_at := none, last_checked_at := none, last_status := none,
    last_error := none, last_duration_ms := none, last_item_count := none,
    consecutive_failures := none }

/-- One iteration of the loop of `_apply_discovered_feeds`. -/
def discoverStep (source : SourceRec) (now : Int) (db : DB) (feedUrl : String) : DB :=
  if feedUrl = "" ∨ feedUrl = source.endpoint then db
  else if db.sources.any (fun s => s.endpoint = feedUrl) then db
  else { db with
         sources := db.sources ++ [discoveredSource source feedUrl db.nextSourceId now],
         nextSourceId := db.nextSourceId + 1 }

/-- `_apply_discovered_feeds` from `app/tasks/ingest.py`: for every
discovered candidate feed URL that is non-empty, different from the current
endpoint and not already a known source endpoint, add a new disabled
auto-discovered source. -/
def applyDiscoveredFeeds (db : DB) (source : SourceRec) (result : FeedFetchResult)
    (now : Int) : DB :=
  result.discovered_feeds.foldl (discoverStep source now) db

/-- `run_source` from `app/tasks/ingest.py`, success path (no exception in
steps 3–7).  `scrapeEnabled` is the `scrape_enabled` worker setting,
`enabledRaw` the enabled gematria schemes from Settings, `fetchResult` the
value returned by `fetch(endpoint)`, `startedAt`/`now` the two clock
readings and `durationMs` the measured duration.  The in-memory ingestion
tracker holds no persistent state and is not modelled.  Returns the new
store and the count of newly created items. -/
def run_source (db : DB) (scrapeEnabled : Bool) (enabledRaw : List String)
    (sourceId : Nat) (fetchResult : FeedFetchResult) (startedAt now : Int)
    (durationMs : Int) : DB × Nat :=
  if scrapeEnabled then
    match db.sources.find? (fun s => s.id = sourceId) with
    | none => (db, 0)
    | some source =>
      let res := processEntries db source.id enabledRaw now fetchResult.entries
      let db1 := res.1
      let newCount := res.2
      let db2 := applyDiscoveredFeeds db1 source fetchResult now
      let status := if newCount ≠ 0 then "ok"
                    else if ¬ fetchResult.entries.isEmpty then "unchanged"
                    else "empty"
      let db3 : DB := { db2 with
        sources := db2.sources.map (fun s =>
          if s.id = sourceId then
            { s with
              last_run_at := some now,
              last_checked_at := some now,
              last_status := some status,
              last_error := none,
              last_duration_ms := some durationMs,
              last_item_count := some newCount,
              consecutive_failures := some 0 }
          else s),
        runs := db2.runs ++ [{ source_id := source.id,
                               started_at := startedAt,
                               finished_at := now,
                               status := status,
                               items_fetched := newCount,
                               duration_ms := some durationMs,
                               error := none }] }
      (db3, newCount)
  else (db, 0)

/-- `run_source`, exception path (the `except Exception` handler): after
`session.rollback()` the handler operates on the previously committed store
`db`, re-reads the source, records the truncated error message, increments
the failure counter, appends an error `CrawlerRun` row with zero item count
and no duration, commits that separately, and returns 0 (the exception is
swallowed). -/
def runSourceOnError (db : DB) (sourceId : Nat) (excMsg : String)
    (startedAt now : Int) : DB × Nat :=
  match db.sources.find? (fun s => s.id = sourceId) with
  | none => (db, 0)
  | some source =>
    ({ db with
       sources := db.sources.map (fun s =>
         if s.id = sourceId then
           { s with
             last_checked_at := some now,
             last_status := some "error",
             last_error := some (strTake excMsg 500),
             consecutive_failures := some ((s.consecutive_failures.getD 0) + 1) }
         else s),
       runs := db.runs ++ [{ source_id := source.id,
                             started_at := startedAt,
                             finished_at := now,
                             status := "error",
                             items_fetched := 0,
                             duration_ms := none,
                             error := some (strTake excMsg 1000) }] }, 0)

lemma ingestEntry_skip (enabledRaw : List String) (sid : Nat) (now : Int)
    (st : DB × Nat) (entry : FeedEntry) (h : hasHash st.1 entry.dedupe_hash = true) :
    ingestEntry enabledRaw sid now st entry = st := by
  simp [ingestEntry, h]

lemma foldl_skip_all (enabledRaw : List String) (sid : Nat) (now : Int)
    (entries : List FeedEntry) (st : DB × Nat)
    (h : ∀ e ∈ entries, hasHash st.1 e.dedupe_hash = true) :
    entries.foldl (ingestEntry enabledRaw sid now) st = st := by
  induction entries with
  | nil => rfl
  | cons e rest ih =>
    rw [List.foldl_cons, ingestEntry_skip _ _ _ _ _ (h e (by simp))]
    exact ih (fun e' he' => h e' (by simp [he']))

lemma ingestEntry_hasHash_mono (enabledRaw : List String) (sid : Nat) (now : Int)
    (st : DB × Nat) (entry : FeedEntry) (h : String)
    (hh : hasHash st.1 h = true) :
    hasHash (ingestEntry enabledRaw sid now st entry).1 h = true := by
  by_cases hc : hasHash st.1 entry.dedupe_hash
  · simpa [ingestEntry, hc] using hh
  · simp only [ingestEntry, hc, if_false, Bool.false_eq_true]
    simp only [hasHash, List.any_append, Bool.or_eq_true] at hh ⊢
    exact Or.inl hh

lemma ingestEntry_hasHash_self (enabledRaw : List String) (sid : Nat) (now : Int)
    (st : DB × Nat) (entry : FeedEntry) :
    hasHash (ingestEntry enabledRaw sid now st entry).1 entry.dedupe_hash = true := by
  by_cases hc : hasHash st.1 entry.dedupe_hash
  · rw [ingestEntry_skip _ _ _ _ _ hc]
    exact hc
  · unfold ingestEntry
    rw [if_neg hc]
    simp [hasHash, List.any_append]

lemma foldl_hasHash_mono (enabledRaw : List String) (sid : Nat) (now : Int)
    (entries : List FeedEntry) (st : DB × Nat) (h : String)
    (hh : hasHash st.1 h = true) :
    hasHash ((entries.foldl (ingestEntry enabledRaw sid now) st).1) h = true := by
  induction entries generalizing st with
  | nil => exact hh
  | cons e rest ih =>
    rw [List.foldl_cons]
    exact ih _ (ingestEntry_hasHash_mono _ _ _ _ _ _ hh)

lemma foldl_hasHash_all (enabledRaw : List String) (sid : Nat) (now : Int)
    (entries : List FeedEntry) (st : DB × Nat) :
    ∀ e ∈ entries,
      hasHash ((entries.foldl (ingestEntry enabledRaw sid now) st).1) e.dedupe_hash = true := by
  induction entries generalizing st with
  | nil => intro e he; cases he
  | cons e0 rest ih =>
    intro e he
    rcases List.mem_cons.1 he with rfl | hmem
    · rw [List.foldl_cons]
      exact foldl_hasHash_mono _ _ _ _ _ _ (ingestEntry_hasHash_self _ _ _ _ _)
    · rw [List.foldl_cons]
      exact ih _ e hmem

lemma ingestEntry_shape (enabledRaw : List String) (sid : Nat) (now : Int)
    (st : DB × Nat) (entry : FeedEntry) :
    (ingestEntry enabledRaw sid now st entry).1.sources = st.1.sources
    ∧ (ingestEntry enabledRaw sid now st entry).1.runs = st.1.runs
    ∧ (ingestEntry enabledRaw sid now st entry).1.nextSourceId = st.1.nextSourceId := by
  by_cases hc : hasHash st.1 entry.dedupe_hash <;> simp [ingestEntry, hc]

lemma processFold_shape (enabledRaw : List String) (sid : Nat) (now : Int)
    (entries : List FeedEntry) (st : DB × Nat) :
    ((entries.foldl (ingestEntry enabledRaw sid now) st).1.sources = st.1.sources)
    ∧ ((entries.foldl (ingestEntry enabledRaw sid now) st).1.runs = st.1.runs) := by
  induction entries generalizing st with
  | nil => exact ⟨rfl, rfl⟩
  | cons e rest ih =>
    obtain ⟨g1, g2, _⟩ := ingestEntry_shape enabledRaw sid now st e
    obtain ⟨h1, h2⟩ := ih (ingestEntry enabledRaw sid now st e)
    exact ⟨by rw [List.foldl_cons, h1, g1], by rw [List.foldl_cons, h2, g2]⟩

lemma discoverStep_shape (source : SourceRec) (now : Int) (db : DB) (feedUrl : String) :
    (discoverStep source now db feedUrl).items = db.items
    ∧ (discoverStep source now db feedUrl).gem = db.gem
    ∧ (discoverStep source now db feedUrl).runs = db.runs
    ∧ ∃ extra, (discoverStep source now db feedUrl).sources = db.sources ++ extra := by
  unfold discoverStep
  split_ifs with h1 h2
  · exact ⟨rfl, rfl, rfl, [], by simp⟩
  · exact ⟨rfl, rfl, rfl, [], by simp⟩
  · exact ⟨rfl, rfl, rfl, [discoveredSource source feedUrl db.nextSourceId now], rfl⟩

lemma discoverFold_shape (source : SourceRec) (now : Int) (feeds : List String) (db : DB) :
    ((feeds.foldl (discoverStep source now) db).items = db.items)
    ∧ ((feeds.foldl (discoverStep source now) db).gem = db.gem)
    ∧ ((feeds.foldl (discoverStep source now) db).runs = db.runs)
    ∧ ∃ extra, (feeds.foldl (discoverStep source now) db).sources = db.sources ++ extra := by
  induction feeds generalizing db with
  | nil => exact ⟨rfl, rfl, rfl, [], by simp⟩
  | cons f rest ih =>
    obtain ⟨g1, g2, g3, ex1, g4⟩ := discoverStep_shape source now db f
    obtain ⟨h1, h2, h3, ex2, h4⟩ := ih (discoverStep source now db f)
    refine ⟨by rw [List.foldl_cons, h1, g1], by rw [List.foldl_cons, h2, g2],
            by rw [List.foldl_cons, h3, g3], ex1 ++ ex2, ?_⟩
    rw [List.foldl_cons, h4, g4, List.append_assoc]

lemma findAppendLeft {α : Type} (p : α → Bool) (l₁ l₂ : List α) (a : α)
    (h : l₁.find? p = some a) : (l₁ ++ l₂).find? p = some a := by
  induction l₁ with
  | nil => simp [List.find?] at h
  | cons x xs ih =>
    rw [List.cons_append]
    by_cases hx : p x
    · simp only [List.find?, hx] at h ⊢
      exact h
    · simp only [List.find?, hx] at h ⊢
      exact ih h

lemma findMapPres {α : Type} (p : α → Bool) (f : α → α) (l : List α)
    (hf : ∀ x, p (f x) = p x) (a : α) (h : l.find? p = some a) :
    (l.map f).find? p = some (f a) := by
  induction l with
  | nil => simp [List.find?] at h
  | cons x xs ih =>
    rw [List.map_cons]
    by_cases hx : p x
    · simp only [List.find?, hx, hf] at h ⊢
      rw [← Option.some.inj h]
    · simp only [List.find?, hx, hf, Bool.false_eq_true, if_false] at h ⊢
      exact ih h

lemma run_source_state (db : DB) (enabledRaw : List String) (sourceId : Nat)
    (fr : FeedFetchResult) (t0 t1 : Int) (d : Int) (src : SourceRec)
    (hfind : db.sources.find? (fun s => s.id = sourceId) = some src) :
    (run_source db true enabledRaw sourceId fr t0 t1 d).1.items =
      (processEntries db src.id enabledRaw t1 fr.entries).1.items
    ∧ (run_source db true enabledRaw sourceId fr t0 t1 d).1.gem =
      (processEntries db src.id enabledRaw t1 fr.entries).1.gem
    ∧ (run_source db true enabledRaw sourceId fr t0 t1 d).2 =
      (processEntries db src.id enabledRaw t1 fr.entries).2 := by
  obtain ⟨h1, h2, h3, _, h4⟩ := discoverFold_shape src t1 fr.discovered_feeds
    (processEntries db src.id enabledRaw t1 fr.entries).1
  simp only [run_source, hfind, if_true, applyDiscoveredFeeds]
  exact ⟨h1, h2, trivial⟩

lemma run_source_preserves_find (db : DB) (enabledRaw : List String) (sourceId : Nat)
    (fr : FeedFetchResult) (t0 t1 : Int) (d : Int) (src : SourceRec)
    (hfind : db.sources.find? (fun s => s.id = sourceId) = some src) :
    ∃ src', (run_source db true enabledRaw sourceId fr t0 t1 d).1.sources.find?
        (fun s => s.id = sourceId) = some src' := by
  obtain ⟨_, _, _, extra, h4⟩ := discoverFold_shape src t1 fr.discovered_feeds
    (processEntries db src.id enabledRaw t1 fr.entries).1
  have p1 : (processEntries db src.id enabledRaw t1 fr.entries).1.sources = db.sources :=
    (processFold_shape enabledRaw src.id t1 fr.entries (db, 0)).1
  simp only [run_source, hfind, if_true, applyDiscoveredFeeds]
  refine ⟨_, findMapPres _ _ _ ?_ src ?_⟩
  · intro x
    by_cases hx : x.id = sourceId <;> simp [hx]
  · rw [h4]
    apply findAppendLeft
    rw [p1]
    exact hfind

/-- C1: ingestion is idempotent on the dedupe hash.  (i) An entry whose
dedupe hash matches an existing item is skipped: the entry step of
`run_source` performs no item insert and no gematria write.  (ii) If every
entry is a duplicate, the whole persist loop leaves the store unchanged and
counts zero new items.  (iii) Running `run_source` a second time over an
unchanged fetch result creates zero new items, leaves the item and gematria
tables unchanged, and returns a new-item count of 0. -/
theorem run_source_idempotent
    (db : DB) (enabledRaw : List String) (sourceId : Nat) (fetchResult : FeedFetchResult)
    (t0 t1 t2 t3 d0 d1 : Int) (src : SourceRec)
    (hfind : db.sources.find? (fun s => s.id = sourceId) = some src) :
    (∀ (st : DB × Nat) (e : FeedEntry), hasHash st.1 e.dedupe_hash = true →
       ingestEntry enabledRaw sourceId t1 st e = st)
    ∧ ((∀ e ∈ fetchResult.entries, hasHash db e.dedupe_hash = true) →
        processEntries db src.id enabledRaw t1 fetchResult.entries = (db, 0))
    ∧ ((run_source (run_source db true enabledRaw sourceId fetchResult t0 t1 d0).1 true
          enabledRaw sourceId fetchResult t2 t3 d1).2 = 0
       ∧ (run_source (run_source db true enabledRaw sourceId fetchResult t0 t1 d0).1 true
            enabledRaw sourceId fetchResult t2 t3 d1).1.items =
         (run_source db true enabledRaw sourceId fetchResult t0 t1 d0).1.items
       ∧ (run_source (run_source db true enabledRaw sourceId fetchResult t0 t1 d0).1 true
            enabledRaw sourceId fetchResult t2 t3 d1).1.gem =
         (run_source db true enabledRaw sourceId fetchResult t0 t1 d0).1.gem) := by
  refine ⟨fun st e h => ingestEntry_skip _ _ _ _ _ h,
          fun h => foldl_skip_all _ _ _ _ _ h, ?_⟩
  obtain ⟨src', hfind'⟩ :=
    run_source_preserves_find db enabledRaw sourceId fetchResult t0 t1 d0 src hfind
  have h1 := (run_source_state db enabledRaw sourceId fetchResult t0 t1 d0 src hfind).1
  have hall : ∀ e ∈ fetchResult.entries,
      hasHash (run_source db true enabledRaw sourceId fetchResult t0 t1 d0).1
        e.dedupe_hash = true := by
    intro e he
    have hp : hasHash (processEntries db src.id enabledRaw t1 fetchResult.entries).1
        e.dedupe_hash = true :=
      foldl_hasHash_all enabledRaw src.id t1 fetchResult.entries (db, 0) e he
    unfold hasHash at hp ⊢
    rw [h1]
    exact hp
  have hdupes : processEntries
      (run_source db true enabledRaw sourceId fetchResult t0 t1 d0).1 src'.id enabledRaw t3
      fetchResult.entries =
      ((run_source db true enabledRaw sourceId fetchResult t0 t1 d0).1, 0) :=
    foldl_skip_all _ _ _ _ _ hall
  obtain ⟨i2, g2, n2⟩ := run_source_state
    (run_source db true enabledRaw sourceId fetchResult t0 t1 d0).1 enabledRaw sourceId
    fetchResult t2 t3 d1 src' hfind'
  refine ⟨?_, ?_, ?_⟩
  · rw [n2, hdupes]
  · rw [i2, hdupes]
  · rw [g2, hdupes]

/-- A concrete source, item store and fetch result used by witnesses. -/
def srcW : SourceRec :=
  { id := 1, name := "W", type := "rss", endpoint := "http://w.example/feed",
    enabled := true, interval_sec := some 60, priority := none,
    auto_discovered := false, discovered_at := none, last_run_at := none,
    last_checked_at := none, last_status := none, last_error := none,
    last_duration_ms := none, last_item_count := none, consecutive_failures := none }

def dbW : DB :=
  { sources := [srcW], items := [], gem := [], runs := [], nextItemId := 1,
    nextSourceId := 2 }

def entryW : FeedEntry :=
  { title := "CAT", url := "http://w.example/cat", published_at := none,
    dedupe_hash := "h1" }

def frW : FeedFetchResult := { entries := [entryW], discovered_feeds := [] }

/-- Witness for `run_source_idempotent`: a second run over the same
single-entry fetch result returns 0 new items. -/
theorem run_source_idempotent_witness :
    (run_source (run_source dbW true ["simple"] 1 frW 0 1 5).1 true
        ["simple"] 1 frW 2 3 5).2 = 0 :=
  (run_source_idempotent dbW ["simple"] 1 frW 0 1 2 3 5 5 srcW (by decide)).2.2.1

/-- C2: the exception path of `run_source` (any exception raised during
fetch/persist/bookkeeping): the transaction is rolled back (the handler
operates on the committed store — items and gematria are unchanged), the
source gets `last_status = "error"`, a 500-character-truncated error
message and an incremented `consecutive_failures` counter, an error
`CrawlerRun` row with item count 0 and no duration is appended and committed
separately, and 0 is returned instead of re-raising. -/
theorem run_source_error_handling
    (db : DB) (sourceId : Nat) (excMsg : String) (startedAt now : Int)
    (src : SourceRec)
    (hfind : db.sources.find? (fun s => s.id = sourceId) = some src) :
    (runSourceOnError db sourceId excMsg startedAt now).2 = 0
    ∧ (runSourceOnError db sourceId excMsg startedAt now).1.items = db.items
    ∧ (runSourceOnError db sourceId excMsg startedAt now).1.gem = db.gem
    ∧ (runSourceOnError db sourceId excMsg startedAt now).1.runs =
        db.runs ++ [{ source_id := src.id,
                      started_at := startedAt,
                      finished_at := now,
                      status := "error",
                      items_fetched := 0,
                      duration_ms := none,
                      error := some (strTake excMsg 1000) }]
    ∧ (strTake excMsg 500).data = excMsg.data.take 500
    ∧ (∀ s ∈ (runSourceOnError db sourceId excMsg startedAt now).1.sources,
         s.id = sourceId →
           s.last_status = some "error"
           ∧ s.last_error = some (strTake excMsg 500)
           ∧ ∃ s₀ ∈ db.sources, s₀.id = sourceId ∧
               s.consecutive_failures = some (s₀.consecutive_failures.getD 0 + 1)) := by
  simp only [runSourceOnError, hfind]
  refine ⟨trivial, trivial, trivial, trivial, rfl, ?_⟩
  intro s hs hsid
  obtain ⟨s₀, hs₀, hmap⟩ := List.mem_map.1 hs
  by_cases h0 : s₀.id = sourceId
  · rw [if_pos h0] at hmap
    exact ⟨by rw [← hmap], by rw [← hmap], s₀, hs₀, h0, by rw [← hmap]⟩
  · rw [if_neg h0] at hmap
    have : s₀.id = sourceId := by rw [hmap]; exact hsid
    exact absurd this h0

/-- Witness for `run_source_error_handling`: a concrete failing run returns 0
and records the error status. -/
theorem run_source_error_handling_witness :
    (runSourceOnError dbW 1 "boom" 0 5).2 = 0 :=
  (run_source_error_handling dbW 1 "boom" 0 5 srcW (by decide)).1

/-! ## `run_due_sources` (`app/tasks/ingest.py`) -/

/-- The `ORDER BY last_run_at ASC` comparison of the due-source query.  The
default store is SQLite (`DATABASE_URL` defaults to `sqlite:///app.db` in
`app/db.py`), whose ascending sort places NULLs first. -/
def dueLeB (a b : SourceRec) : Bool :=
  match a.last_run_at, b.last_run_at with
  | none, _ => true
  | some _, none => false
  | some x, some y => decide (x ≤ y)

def dueLeP (a b : SourceRec) : Prop := dueLeB a b = true

instance : DecidableRel dueLeP := fun _ _ => instDecidableEqBool _ _

instance : IsTotal SourceRec dueLeP where
  total a b := by
    unfold dueLeP dueLeB
    rcases a.last_run_at with _ | x <;> rcases b.last_run_at with _ | y <;> simp
    exact Int.le_total x y

instance : IsTrans SourceRec dueLeP where
  trans a b c hab hbc := by
    unfold dueLeP dueLeB at *
    rcases ha : a.last_run_at with _ | x <;> rcases hb : b.last_run_at with _ | y <;>
      rcases hc : c.last_run_at with _ | z <;> simp_all <;> omega

/-- The due-source query result: enabled sources ordered by `last_run_at`
ascending, NULLs (never-run sources) first. -/
def sortSources (l : List SourceRec) : List SourceRec :=
  List.insertionSort dueLeP l

/-- The due test of `run_due_sources`: skip a source whose configured
interval is set and whose last run plus that interval is still in the
future; sources with no interval or no previous run are always due. -/
def isDue (s : SourceRec) (now : Int) : Bool :=
  let interval := s.interval_sec.getD 0
  if interval ≠ 0 then
    match s.last_run_at with
    | some t => decide (t + interval ≤ now)
    | none => true
  else true

/-- The counting loop of `run_due_sources`: stop when the cap is reached
(cap 0 means unlimited), skip not-due sources without counting them, and
count every attempted source regardless of how many items its run
produced. -/
def runDueLoop (limit : Nat) (now : Int) : List SourceRec → Nat → Nat
  | [], processed => processed
  | s :: rest, processed =>
    if limit ≠ 0 ∧ processed ≥ limit then processed
    else if isDue s now then runDueLoop limit now rest (processed + 1)
    else runDueLoop limit now rest processed

/-- The ids of the sources attempted by the loop, in order. -/
def runDueList (limit : Nat) (now : Int) : List SourceRec → Nat → List Nat
  | [], _ => []
  | s :: rest, processed =>
    if limit ≠ 0 ∧ processed ≥ limit then []
    else if isDue s now then s.id :: runDueList limit now rest (processed + 1)
    else runDueList limit now rest processed

/-- `run_due_sources` from `app/tasks/ingest.py`.  The iteration list is the
result of a single query executed before the loop, so the per-source
`run_source` calls (whose effects do not feed back into the count) are not
threaded through the model. -/
def run_due_sources (db : DB) (scrapeEnabled : Bool) (limit : Nat) (now : Int) : Nat :=
  if scrapeEnabled then
    runDueLoop limit now (sortSources (db.sources.filter (fun s => s.enabled))) 0
  else 0

/-- The due sources of an ordered list, projected to ids. -/
def dueIds (now : Int) (l : List SourceRec) : List Nat :=
  (l.filter (fun s => isDue s now)).map (fun s => s.id)

lemma runDueList_eq (limit : Nat) (now : Int) (l : List SourceRec) (p : Nat) :
    runDueList limit now l p =
      if limit = 0 then dueIds now l else (dueIds now l).take (limit - p) := by
  induction l generalizing p with
  | nil => split <;> simp [runDueList, dueIds]
  | cons s rest ih =>
    by_cases h0 : limit = 0
    · subst h0
      by_cases hd : isDue s now <;>
        simp [runDueList, hd, ih, dueIds, List.filter_cons]
    · by_cases hp : p ≥ limit
      · have hz : limit - p = 0 := Nat.sub_eq_zero_of_le hp
        simp [runDueList, h0, hp, hz]
      · have hpos : 0 < limit - p := Nat.sub_pos_of_lt (Nat.lt_of_not_le hp)
        by_cases hd : isDue s now
        · obtain ⟨k, hk⟩ : ∃ k, limit - p = k + 1 :=
            ⟨limit - p - 1, by omega⟩
          have hk' : limit - (p + 1) = k := by omega
          simp [runDueLoop, runDueList, h0, hp, hd, ih, dueIds, List.filter_cons, hk, hk']
        · simp [runDueList, h0, hp, hd, ih, dueIds, List.filter_cons]

lemma runDueLoop_eq (limit : Nat) (now : Int) (l : List SourceRec) (p : Nat) :
    runDueLoop limit now l p = p + (runDueList limit now l p).length := by
  induction l generalizing p with
  | nil => simp [runDueLoop, runDueList]
  | cons s rest ih =>
    by_cases hb : limit ≠ 0 ∧ p ≥ limit
    · simp [runDueLoop, runDueList, hb]
    · by_cases hd : isDue s now
      · simp only [runDueLoop, runDueList, hb, if_false, hd, if_true, ih, List.length_cons]
        omega
      · simp [runDueLoop, runDueList, hb, hd, ih]

/-- C3: `run_due_sources` iterates the enabled sources ordered by
`last_run_at` ascending with never-run (NULL) sources first, skips sources
whose last run plus interval is still in the future, stops at the
max-sources-per-cycle cap (0 meaning unlimited) and returns the number of
sources attempted: with cap 0 every due source is attempted, with cap K
exactly `min K (number due)` are attempted, and for N all-due enabled
sources and K < N exactly K are processed. -/
theorem run_due_sources_selection :
    (∀ db : DB, (sortSources (db.sources.filter (fun s => s.enabled))).Perm
        (db.sources.filter (fun s => s.enabled))
      ∧ (sortSources (db.sources.filter (fun s => s.enabled))).Sorted dueLeP)
    ∧ (∀ (db : DB) (now : Int), run_due_sources db true 0 now =
        (dueIds now (sortSources (db.sources.filter (fun s => s.enabled)))).length)
    ∧ (∀ (db : DB) (now : Int) (limit : Nat), limit ≠ 0 →
        run_due_sources db true limit now =
          min limit (dueIds now (sortSources (db.sources.filter (fun s => s.enabled)))).length)
    ∧ (∀ (db : DB) (now : Int) (limit N : Nat), limit ≠ 0 →
        (∀ s ∈ db.sources, s.enabled = true) →
        (∀ s ∈ db.sources, isDue s now = true) →
        db.sources.length = N → limit < N →
        run_due_sources db true limit now = limit) := by
  have hmain : ∀ (db : DB) (now : Int) (limit : Nat),
      run_due_sources db true limit now =
        if limit = 0
        then (dueIds now (sortSources (db.sources.filter (fun s => s.enabled)))).length
        else min limit
          (dueIds now (sortSources (db.sources.filter (fun s => s.enabled)))).length := by
    intro db now limit
    unfold run_due_sources
    rw [if_pos rfl, runDueLoop_eq, runDueList_eq]
    by_cases h0 : limit = 0
    · simp [h0]
    · simp [h0, List.length_take]
  refine ⟨?_, ?_, ?_, ?_⟩
  · intro db
    exact ⟨List.perm_insertionSort dueLeP _, List.sorted_insertionSort dueLeP _⟩
  · intro db now
    simpa using hmain db now 0
  · intro db now limit h0
    simpa [h0] using hmain db now limit
  · intro db now limit N h0 hen hdue hN hlt
    have hfilter : db.sources.filter (fun s => s.enabled) = db.sources :=
      List.filter_eq_self.2 (fun s hs => by simp [hen s hs])
    have hperm := List.perm_insertionSort dueLeP (db.sources.filter (fun s => s.enabled))
    have hdue' : ∀ s ∈ sortSources (db.sources.filter (fun s => s.enabled)),
        isDue s now = true := by
      intro s hs
      have : s ∈ db.sources := by
        have := hperm.mem_iff.1 hs
        rw [hfilter] at this
        exact this
      exact hdue s this
    have hfd : (sortSources (db.sources.filter (fun s => s.enabled))).filter
        (fun s => isDue s now) = sortSources (db.sources.filter (fun s => s.enabled)) :=
      List.filter_eq_self.2 (fun s hs => by simp [hdue' s hs])
    have hlen : (dueIds now (sortSources (db.sources.filter (fun s => s.enabled)))).length = N := by
      unfold dueIds
      rw [hfd, List.length_map]
      unfold sortSources
      rw [hperm.length_eq, hfilter, hN]
    rw [hmain db now limit, if_neg h0, hlen]
    omega

/-- Three enabled never-run sources used by the due-source witness. -/
def dbDueW : DB :=
  { sources := [{ srcW with id := 1 }, { srcW with id := 2 }, { srcW with id := 3 }],
    items := [], gem := [], runs := [], nextItemId := 1, nextSourceId := 4 }

/-- Witness for `run_due_sources_selection`: three enabled, all-due sources
with a cap of 2 give exactly 2 attempted sources. -/
theorem run_due_sources_selection_witness :
    run_due_sources dbDueW true 2 100 = 2 :=
  run_due_sources_selection.2.2.2 dbDueW 100 2 3 (by decide) (by decide) (by decide)
    (by decide) (by decide)

/-! ## Scheduler (`scheduler_app.py`) -/

/-- `ScheduledJob` from `scheduler_app.py`; times are rational seconds since
the epoch and `next_run = none` models `float("inf")` (never). -/
structure ScheduledJob where
  name : String
  interval : ℚ
  next_run : Option ℚ
  last_run : Option ℚ
  last_duration : Option ℚ
  total_runs : Nat
  running : Bool
  enabled : Bool
  error : Option String
deriving DecidableEq, Repr

/-- `Scheduler._finalize_job`: on each completion (success or caught
exception) record the completion time and duration, increment the run
counter, store the error text, clear the running flag, and reschedule to
completion time plus interval when still enabled, else to never. -/
def finalize_job (job : ScheduledJob) (completed_at duration : ℚ)
    (error : Option String) : ScheduledJob :=
  { job with
    last_run := some completed_at,
    last_duration := some duration,
    total_runs := job.total_runs + 1,
    error := error,
    running := false,
    next_run := if job.enabled then some (completed_at + job.interval) else none }

/-- `Scheduler.disable_job` applied to a registered job: never run again
(an in-flight execution is not cancelled). -/
def disable_job (job : ScheduledJob) : ScheduledJob :=
  { job with enabled := false, next_run := none }

/-- `Scheduler.enable_job`: mark enabled and re-arm to run after `delay`
(default: the interval) from now, clamped at 0. -/
def enable_job (job : ScheduledJob) (now : ℚ) (delay : Option ℚ) : ScheduledJob :=
  { job with enabled := true, next_run := some (now + max (delay.getD job.interval) 0) }

/-- C7: on each completion `_finalize_job` sets `last_run` to the completion
time, increments `total_runs`, records the error and clears the running
flag, and reschedules `next_run` to completion time plus the configured
interval when the job is still enabled, else to never; after `disable_job`
the next run time is never — and stays never across further completions —
until `enable_job` re-arms the job. -/
theorem scheduler_finalize_reschedule (job : ScheduledJob)
    (completed_at duration c2 d2 : ℚ) (error err2 : Option String) (now delay : ℚ) :
    (finalize_job job completed_at duration error).last_run = some completed_at
    ∧ (finalize_job job completed_at duration error).last_duration = some duration
    ∧ (finalize_job job completed_at duration error).total_runs = job.total_runs + 1
    ∧ (finalize_job job completed_at duration error).running = false
    ∧ (finalize_job job completed_at duration error).error = error
    ∧ (job.enabled = true →
        (finalize_job job completed_at duration error).next_run =
          some (completed_at + job.interval))
    ∧ (job.enabled = false →
        (finalize_job job completed_at duration error).next_run = none)
    ∧ (disable_job job).next_run = none
    ∧ (disable_job job).enabled = false
    ∧ (finalize_job (disable_job job) c2 d2 err2).next_run = none
    ∧ (enable_job (disable_job job) now (some delay)).next_run =
        some (now + max delay 0) := by
  refine ⟨rfl, rfl, rfl, rfl, rfl, ?_, ?_, rfl, rfl, ?_, rfl⟩
  · intro h
    simp [finalize_job, h]
  · intro h
    simp [finalize_job, h]
  · simp [finalize_job, disable_job]

/-- A concrete running, enabled job used by the scheduler witness. -/
def jobW : ScheduledJob :=
  { name := "ping", interval := 60, next_run := some 60, last_run := none,
    last_duration := none, total_runs := 0, running := true, enabled := true,
    error := none }

/-- Witness for `scheduler_finalize_reschedule`: finalizing the enabled job
`jobW` at time 100 reschedules it to 160. -/
theorem scheduler_finalize_reschedule_witness :
    (finalize_job jobW 100 1 none).next_run = some (100 + 60) :=
  (scheduler_finalize_reschedule jobW 100 1 0 0 none none 0 0).2.2.2.2.2.1 rfl

/-! ## Pattern discovery (`app/services/nlp/patterns.py`) -/

/-- `EmbeddedItem` (the embedding vector feeds only the external
`MiniBatchKMeans` model and is not consumed by the clustering logic
modelled here). -/
structure EmbeddedItem where
  item_id : Nat
  text : String
  tokens : List String
deriving DecidableEq, Repr

/-- `PatternCandidate`; `size` is the `meta = {"size": n}` payload. -/
structure PatternCandidate where
  label : String
  top_terms : List String
  anomaly_score : ℚ
  item_ids : List Nat
  size : Nat
deriving DecidableEq, Repr

/-- Python `round` (banker's rounding, half to even). -/
def roundHalfEven (q : ℚ) : ℤ :=
  let f := ⌊q⌋
  let frac := q - f
  if frac < 1/2 then f
  else if 1/2 < frac then f + 1
  else if f % 2 = 0 then f else f + 1

/-- Python `round(x, 4)`. -/
def round4 (q : ℚ) : ℚ := (roundHalfEven (q * 10000) : ℚ) / 10000

/-- `_frequency_label`: the first token (in dict insertion order, i.e. first
occurrence) with the maximal count, or `"pattern"` for no tokens. -/
def frequency_label (tokens : List String) : String :=
  if tokens.isEmpty then "pattern"
  else
    (pyDedup tokens).foldl
      (fun best t => if tokens.count best < tokens.count t then t else best)
      ((pyDedup tokens).headD "pattern")

/-- `_top_terms`: token frequencies over all token lists, sorted by count
descending (Python `sorted(..., reverse=True)` is stable, so ties keep
first-occurrence order), limited to the top 5. -/
def top_terms (all_tokens : List (List String)) (limit : Nat) : List String :=
  let flat := all_tokens.flatten
  (List.insertionSort (fun a b => flat.count b ≤ flat.count a) (pyDedup flat)).take limit

/-- Python `dict.setdefault(k, []).append(e)` on an insertion-ordered
association list. -/
def assocAppend {κ : Type} [DecidableEq κ] (acc : List (κ × List EmbeddedItem)) (k : κ)
    (e : EmbeddedItem) : List (κ × List EmbeddedItem) :=
  match acc with
  | [] => [(k, [e])]
  | p :: ps => if p.1 = k then (p.1, p.2 ++ [e]) :: ps else p :: assocAppend ps k e

/-- `_fallback_clusters` from `app/services/nlp/patterns.py`: bucket the
items by their first token (label `"pattern"` for token-less items), drop
buckets smaller than `min_cluster_size`, and build a candidate per
surviving bucket.  Note that `max_clusters` is not consulted on this
path. -/
def fallback_clusters (items : List EmbeddedItem) (min_cluster_size : Nat) :
    List PatternCandidate :=
  let buckets := items.foldl
    (fun acc e => assocAppend acc (e.tokens.headD (frequency_label [])) e) []
  let total : Nat := max items.length 1
  buckets.filterMap (fun p =>
    if p.2.length < min_cluster_size then none
    else some
      { label := p.1,
        top_terms := top_terms (p.2.map (fun b => b.tokens)) 5,
        anomaly_score := round4 (1 - (p.2.length : ℚ) / (total : ℚ)),
        item_ids := p.2.map (fun b => b.item_id),
        size := p.2.length })

/-- `cluster_embeddings`, fallback path (`MiniBatchKMeans is None`). -/
def cluster_embeddings_fallback (items : List EmbeddedItem)
    (min_cluster_size max_clusters : Nat) : List PatternCandidate :=
  if items.isEmpty then []
  else if items.length < min_cluster_size then []
  else fallback_clusters items min_cluster_size

/-- `n_clusters = max(1, min(max_clusters, len(items) // min_cluster_size))`
(the k-means path; `min_cluster_size = 0` would be a Python
`ZeroDivisionError`). -/
def nClusters (itemCount min_cluster_size max_clusters : Nat) : Nat :=
  max 1 (min max_clusters (itemCount / min_cluster_size))

/-- The grouping `clustered.setdefault(int(label), []).append(embedded)`
over `zip(items, labels)`. -/
def clusterByLabels (items : List EmbeddedItem) (labels : List Int) :
    List (Int × List EmbeddedItem) :=
  (items.zip labels).foldl (fun acc p => assocAppend acc p.2 p.1) []

/-- `cluster_embeddings`, k-means path, parameterised by the label vector
`labels` produced by the external `MiniBatchKMeans.fit_predict` (whose
labels lie in `[0, n_clusters)`): group by label, drop groups smaller than
`min_cluster_size`, label each candidate by its top term (or
`cluster-<label>`), and sort by anomaly score descending. -/
def cluster_embeddings_kmeans (items : List EmbeddedItem) (labels : List Int)
    (min_cluster_size : Nat) : List PatternCandidate :=
  let clustered := clusterByLabels items labels
  let total := items.length
  let patterns := clustered.filterMap (fun p =>
    if p.2.length < min_cluster_size then none
    else
      let tts := top_terms (p.2.map (fun b => b.tokens)) 5
      some { label := tts.headD ("cluster-" ++ toString p.1),
             top_terms := tts,
             anomaly_score := round4 (1 - (p.2.length : ℚ) / (total : ℚ)),
             item_ids := p.2.map (fun b => b.item_id),
             size := p.2.length })
  List.insertionSort (fun a b => b.anomaly_score ≤ a.anomaly_score) patterns

def cexItem (i : Nat) (t : String) : EmbeddedItem :=
  { item_id := i, text := t, tokens := [t] }

/-- Twelve items with six distinct first tokens, two items each — the
default `discover_patterns` parameters are `min_cluster_size = 2`,
`max_clusters = 5`. -/
def cexItems : List EmbeddedItem :=
  [cexItem 1 "alpha", cexItem 2 "alpha", cexItem 3 "bravo", cexItem 4 "bravo",
   cexItem 5 "carol", cexItem 6 "carol", cexItem 7 "delta", cexItem 8 "delta",
   cexItem 9 "easy", cexItem 10 "easy", cexItem 11 "fox", cexItem 12 "fox"]

/-- C8, counterexample: on the deterministic first-token fallback path
`_fallback_clusters` never consults `max_clusters`, so with the default
parameters (`min_cluster_size = 2`, `max_clusters = 5`) twelve items with
six distinct first tokens produce six groups — more than `max_clusters`. -/
theorem cluster_embeddings_cap_counterexample :
    (cluster_embeddings_fallback cexItems 2 5).length = 6 ∧
    ¬ ((cluster_embeddings_fallback cexItems 2 5).length ≤ 5) := by
  have h : (cluster_embeddings_fallback cexItems 2 5).length = 6 := rfl
  exact ⟨h, by rw [h]; decide⟩

lemma fallback_clusters_size (items : List EmbeddedItem) (minc : Nat) :
    ∀ p ∈ fallback_clusters items minc, minc ≤ p.size := by
  intro p hp
  obtain ⟨q, _, hfq⟩ := List.mem_filterMap.1 hp
  by_cases hc : q.2.length < minc
  · simp [hc] at hfq
  · rw [if_neg hc] at hfq
    rw [← Option.some.inj hfq]
    exact Nat.le_of_not_lt hc

lemma assocAppend_keys_sub {κ : Type} [DecidableEq κ]
    (acc : List (κ × List EmbeddedItem)) (k : κ) (e : EmbeddedItem) :
    ∀ x ∈ (assocAppend acc k e).map Prod.fst, x ∈ acc.map Prod.fst ∨ x = k := by
  induction acc with
  | nil =>
    intro x hx
    rw [show assocAppend ([] : List (κ × List EmbeddedItem)) k e = [(k, [e])] from rfl,
      List.map_cons] at hx
    rcases List.mem_cons.1 hx with h | h
    · exact Or.inr h
    · cases h
  | cons p ps ih =>
    intro x hx
    by_cases hp : p.1 = k
    · rw [show assocAppend (p :: ps) k e = (p.1, p.2 ++ [e]) :: ps from by
        simp [assocAppend, hp], List.map_cons] at hx
      rcases List.mem_cons.1 hx with h | h
      · exact Or.inl (by rw [List.map_cons]; exact h ▸ List.mem_cons_self _ _)
      · exact Or.inl (by rw [List.map_cons]; exact List.mem_cons_of_mem _ h)
    · rw [show assocAppend (p :: ps) k e = p :: assocAppend ps k e from by
        simp [assocAppend, hp], List.map_cons] at hx
      rcases List.mem_cons.1 hx with h | h
      · exact Or.inl (by rw [List.map_cons]; exact h ▸ List.mem_cons_self _ _)
      · rcases ih x h with h' | h'
        · exact Or.inl (by rw [List.map_cons]; exact List.mem_cons_of_mem _ h')
        · exact Or.inr h'

lemma assocAppend_keys_nodup {κ : Type} [DecidableEq κ]
    (acc : List (κ × List EmbeddedItem)) (k : κ) (e : EmbeddedItem)
    (h : (acc.map Prod.fst).Nodup) : ((assocAppend acc k e).map Prod.fst).Nodup := by
  induction acc with
  | nil => simp [assocAppend]
  | cons p ps ih =>
    by_cases hp : p.1 = k
    · simpa [assocAppend, hp] using h
    · simp only [List.map_cons, List.nodup_cons] at h
      simp only [assocAppend, hp, if_false, List.map_cons, List.nodup_cons]
      refine ⟨?_, ih h.2⟩
      intro hmem
      rcases assocAppend_keys_sub ps k e p.1 hmem with h' | h'
      · exact h.1 h'
      · exact hp h'

lemma clusterFold_keys (pairs : List (EmbeddedItem × Int))
    (acc : List (Int × List EmbeddedItem)) (hnd : (acc.map Prod.fst).Nodup) :
    ((pairs.foldl (fun acc p => assocAppend acc p.2 p.1) acc).map Prod.fst).Nodup
    ∧ ∀ x ∈ (pairs.foldl (fun acc p => assocAppend acc p.2 p.1) acc).map Prod.fst,
        x ∈ acc.map Prod.fst ∨ x ∈ pairs.map Prod.snd := by
  induction pairs generalizing acc with
  | nil => exact ⟨hnd, fun x hx => Or.inl hx⟩
  | cons q qs ih =>
    obtain ⟨h1, h2⟩ := ih (assocAppend acc q.2 q.1) (assocAppend_keys_nodup _ _ _ hnd)
    refine ⟨h1, ?_⟩
    intro x hx
    rcases h2 x hx with h | h
    · rcases assocAppend_keys_sub acc q.2 q.1 x h with h' | h'
      · exact Or.inl h'
      · exact Or.inr (by rw [List.map_cons]; exact h' ▸ List.mem_cons_self _ _)
    · exact Or.inr (by rw [List.map_cons]; exact List.mem_cons_of_mem _ h)

lemma clusterByLabels_length_le (items : List EmbeddedItem) (labels : List Int) (n : Nat)
    (hall : ∀ l ∈ labels, 0 ≤ l ∧ l < (n : Int)) :
    (clusterByLabels items labels).length ≤ n := by
  classical
  obtain ⟨hnd, hsub⟩ := clusterFold_keys (items.zip labels) [] (by simp)
  have hall' : ∀ x ∈ (clusterByLabels items labels).map Prod.fst, 0 ≤ x ∧ x < (n : Int) := by
    intro x hx
    rcases hsub x hx with h | h
    · simp at h
    · obtain ⟨pr, hpr, hpx⟩ := List.mem_map.1 h
      obtain ⟨a, b⟩ := pr
      have hb : b ∈ labels := (List.of_mem_zip hpr).2
      exact hpx ▸ hall b hb
  have hnd' : ((clusterByLabels items labels).map Prod.fst).Nodup := hnd
  have hlen : (clusterByLabels items labels).length =
      ((clusterByLabels items labels).map Prod.fst).length := (List.length_map _ _).symm
  rw [hlen]
  have h1 : ((clusterByLabels items labels).map Prod.fst).toFinset ⊆ Finset.Ico (0:ℤ) n := by
    intro x hx
    simp only [List.mem_toFinset] at hx
    simp [Finset.mem_Ico, hall' x hx]
  have h2 := Finset.card_le_card h1
  rw [List.toFinset_card_of_nodup hnd', Int.card_Ico] at h2
  simpa using h2

/-- C8, amended: every returned group (on both the k-means path and the
first-token fallback path) has size at least `min_cluster_size`; on the
k-means path the group count is bounded by
`n_clusters = max(1, min(max_clusters, n // min_cluster_size)) ≤ max 1
max_clusters`; on the fallback path the group count is not bounded by
`max_clusters` (see the counterexample). -/
theorem cluster_embeddings_bounds :
    (∀ (items : List EmbeddedItem) (minc maxc : Nat),
        ∀ p ∈ cluster_embeddings_fallback items minc maxc, minc ≤ p.size)
    ∧ (∀ (items : List EmbeddedItem) (labels : List Int) (minc : Nat),
        ∀ p ∈ cluster_embeddings_kmeans items labels minc, minc ≤ p.size)
    ∧ (∀ (items : List EmbeddedItem) (labels : List Int) (minc maxc : Nat),
        0 < minc →
        (∀ l ∈ labels, 0 ≤ l ∧ l < (nClusters items.length minc maxc : Int)) →
        (cluster_embeddings_kmeans items labels minc).length ≤ max 1 maxc) := by
  refine ⟨?_, ?_, ?_⟩
  · intro items minc maxc p hp
    unfold cluster_embeddings_fallback at hp
    by_cases h1 : items.isEmpty
    · simp [h1] at hp
    · by_cases h2 : items.length < minc
      · simp [h1, h2] at hp
      · rw [if_neg (by simpa using h1), if_neg h2] at hp
        exact fallback_clusters_size items minc p hp
  · intro items labels minc p hp
    simp only [cluster_embeddings_kmeans] at hp
    have hp' := (List.perm_insertionSort
      (fun a b : PatternCandidate => b.anomaly_score ≤ a.anomaly_score) _).mem_iff.1 hp
    obtain ⟨q, _, hfq⟩ := List.mem_filterMap.1 hp'
    by_cases hc : q.2.length < minc
    · simp [hc] at hfq
    · rw [if_neg hc] at hfq
      rw [← Option.some.inj hfq]
      exact Nat.le_of_not_lt hc
  · intro items labels minc maxc _ hall
    simp only [cluster_embeddings_kmeans]
    rw [(List.perm_insertionSort
      (fun a b : PatternCandidate => b.anomaly_score ≤ a.anomaly_score) _).length_eq]
    have b2 : (clusterByLabels items labels).length ≤ nClusters items.length minc maxc :=
      clusterByLabels_length_le items labels _ hall
    have b3 : nClusters items.length minc maxc ≤ max 1 maxc := by
      unfold nClusters
      exact max_le (le_max_left _ _) (le_trans (min_le_left _ _) (le_max_right _ _))
    exact le_trans (List.length_filterMap_le _ _) (le_trans b2 b3)

/-- Witness for `cluster_embeddings_bounds`: two identical-token items with
k-means labels `[0, 0]`, `min_cluster_size = 1`, `max_clusters = 5`. -/
theorem cluster_embeddings_bounds_witness :
    (cluster_embeddings_kmeans [cexItem 1 "alpha", cexItem 2 "alpha"] [0, 0] 1).length ≤
      max 1 5 :=
  cluster_embeddings_bounds.2.2 [cexItem 1 "alpha", cexItem 2 "alpha"] [0, 0] 1 5
    (by decide) (by decide)

/-! ## Alert evaluation (`app/services/alerts/__init__.py`)

Rule bodies are YAML documents parsed by `yaml.safe_load`; the parse outcome
is modelled by `Option YVal` (`none` = `yaml.YAMLError`) and the Python
dynamic-typing failures (`AttributeError`, `TypeError`, `KeyError`,
`ValueError`) become `PyErr` values. -/

/-- A parsed YAML value.  Floats and non-string mapping keys do not occur in
the alert rule format and are not modelled. -/
inductive YVal where
  | null
  | bool (b : Bool)
  | int (n : Int)
  | str (s : String)
  | list (xs : List YVal)
  | map (kvs : List (String × YVal))
deriving Repr

inductive PyErr where
  | attrErr
  | typeErr
  | keyErr
  | valueErrUnsupportedPeriod (p : String)
  | valueErrInt (s : String)
deriving DecidableEq, Repr

/-- Python truthiness. -/
def ytruthy : YVal → Bool
  | .null => false
  | .bool b => b
  | .int n => n != 0
  | .str s => !s.isEmpty
  | .list xs => !xs.isEmpty
  | .map kvs => !kvs.isEmpty

/-- Python `d.get(key, default)`; `AttributeError` on non-mappings. -/
def yget (v : YVal) (key : String) (default : YVal) : Except PyErr YVal :=
  match v with
  | .map kvs => .ok (((kvs.find? (fun p => p.1 = key)).map (fun p => p.2)).getD default)
  | _ => .error .attrErr

/-- Substring test on character lists (Python `in` on strings). -/
def pyInfix (needle : List Char) : List Char → Bool
  | [] => needle.isEmpty
  | c :: t => needle.isPrefixOf (c :: t) || pyInfix needle t

/-- Python `key in cond`: key membership for mappings, substring for
strings, element membership for lists, `TypeError` otherwise. -/
def yinKey (key : String) : YVal → Except PyErr Bool
  | .map kvs => .ok (kvs.any (fun p => p.1 = key))
  | .str s => .ok (pyInfix key.data s.data)
  | .list xs => .ok (xs.any (fun v => match v with | .str s => s = key | _ => false))
  | _ => .error .typeErr

/-- Python `cond[key]`: `KeyError` for missing keys, `TypeError` for
string/list indexing with a string, `TypeError` otherwise. -/
def yindex (v : YVal) (key : String) : Except PyErr YVal :=
  match v with
  | .map kvs =>
    match kvs.find? (fun p => p.1 = key) with
    | some p => .ok p.2
    | none => .error .keyErr
  | _ => .error .typeErr

/-- Python `for cond in conditions`: lists yield elements, strings yield
characters, mappings yield keys, other values raise `TypeError`. -/
def yiter : YVal → Except PyErr (List YVal)
  | .list xs => .ok xs
  | .str s => .ok (s.data.map (fun c => .str (String.mk [c])))
  | .map kvs => .ok (kvs.map (fun p => .str p.1))
  | _ => .error .typeErr

def trimChars (l : List Char) : List Char :=
  ((l.dropWhile Char.isWhitespace).reverse.dropWhile Char.isWhitespace).reverse

/-- Python `int(s)` on a string: optional sign, non-empty digit run. -/
def pyInt (s : String) : Option Int :=
  let t := trimChars s.data
  let signed : Int × List Char :=
    match t with
    | '+' :: rest => (1, rest)
    | '-' :: rest => (-1, rest)
    | _ => (1, t)
  if signed.2.isEmpty || !signed.2.all Char.isDigit then none
  else some (signed.1 * ((signed.2.foldl (fun n c => n * 10 + (c.toNat - 48)) 0 : Nat) : Int))

def pyEndsWith (s : String) (c : Char) : Bool := s.data.getLast? = some c

def strDropLast (s : String) : String := String.mk s.data.dropLast

/-- `_parse_period` from `app/services/alerts/__init__.py`, in seconds:
`"<n>h"` and `"<n>d"` are supported; any other suffix raises `ValueError`,
a non-integer count raises `ValueError`, and a non-string YAML value for
the period raises `AttributeError` (no `endswith` on non-strings). -/
def parse_period (period : YVal) : Except PyErr Int :=
  match period with
  | .str s =>
    if pyEndsWith s 'h' then
      match pyInt (strDropLast s) with
      | some n => .ok (n * 3600)
      | none => .error (.valueErrInt (strDropLast s))
    else if pyEndsWith s 'd' then
      match pyInt (strDropLast s) with
      | some n => .ok (n * 86400)
      | none => .error (.valueErrInt (strDropLast s))
    else .error (.valueErrUnsupportedPeriod s)
  | _ => .error .attrErr

/-- `_extract_rule`: `yaml.safe_load(alert.rule_yaml) or {}` — parse errors
and falsy documents become the empty mapping. -/
def extract_rule (parsed : Option YVal) : YVal :=
  match parsed with
  | none => .map []
  | some v => if ytruthy v then v else .map []

/-- The loop state of `evaluate_alerts` for one alert: scheme, accepted
values, source allow-list, window period and minimum count, with the
defaults from the source. -/
structure RuleFields where
  scheme : YVal
  value_in : YVal
  source_in : YVal
  period : YVal
  min_count : YVal
deriving Repr

def initRuleFields : RuleFields :=
  { scheme := .null, value_in := .list [], source_in := .list [],
    period := .str "24h", min_count := .int 1 }

/-- One iteration of the `for cond in conditions` loop. -/
def applyCond (f : RuleFields) (cond : YVal) : Except PyErr RuleFields := do
  let f ← do
    let b ← yinKey "scheme" cond
    if b then
      let sv ← yindex cond "scheme"
      let vin ← yget cond "value_in" (.list [])
      pure { f with scheme := sv, value_in := vin }
    else pure f
  let f ← do
    let b ← yinKey "source_in" cond
    if b then
      let sv ← yindex cond "source_in"
      pure { f with source_in := sv }
    else pure f
  let b ← yinKey "window" cond
  if b then
    let win ← yindex cond "window"
    let p ← yget win "period" f.period
    let m ← yget win "min_count" f.min_count
    pure { f with period := p, min_count := m }
  else pure f

def ymatchStr (v : YVal) (s : String) : Bool :=
  match v with | .str t => t = s | _ => false

def ymatchInt (v : YVal) (n : Int) : Bool :=
  match v with | .int m => m = n | _ => false

/-- The count query of `evaluate_alerts`: gematria rows joined through item
and source, with matching scheme, value in the accepted set, source name in
the allow-list, and `fetched_at` within the window.  SQLAlchemy `.in_()`
rejects non-sequence arguments (`TypeError`). -/
def alertMatches (db : DB) (schemeV value_in source_in : YVal) (since : Int) :
    Except PyErr Nat :=
  match value_in, source_in with
  | .list vs, .list ss =>
    .ok ((db.gem.filter (fun g =>
        ymatchStr schemeV g.scheme
        && vs.any (fun v => ymatchInt v (g.value : Int))
        && db.items.any (fun it => it.id == g.item_id && decide (since ≤ it.fetched_at)
             && db.sources.any (fun src => src.id == it.source_id
                  && ss.any (fun v => ymatchStr v src.name))))).length)
  | _, _ => .error .typeErr

/-- Python `count >= min_count`: defined for ints and bools, `TypeError`
otherwise. -/
def pyGe (count : Nat) (minc : YVal) : Except PyErr Bool :=
  match minc with
  | .int n => .ok (decide ((count : Int) ≥ n))
  | .bool b => .ok (decide ((count : Int) ≥ (if b then 1 else 0)))
  | _ => .error .typeErr

structure AlertRec where
  id : Nat
  enabled : Bool
  ruleParse : Option YVal
  last_eval_at : Option Int
deriving Repr

structure EventRec where
  alert_id : Nat
  count : Nat
deriving DecidableEq, Repr

/-- The per-alert body of `evaluate_alerts`, applied to the extracted rule:
returns `some count` when the alert triggers, `none` when it does not, and
a `PyErr` when the Python code would raise. -/
def evalAlertFromRule (db : DB) (now : Int) (rule : YVal) : Except PyErr (Option Nat) := do
  let whenV ← yget rule "when" (.map [])
  let conditions ← yget whenV "all" (.list [])
  let condList ← yiter conditions
  let fields ← condList.foldlM applyCond initRuleFields
  if ytruthy fields.scheme && ytruthy fields.value_in && ytruthy fields.source_in then
    let secs ← parse_period fields.period
    let count ← alertMatches db fields.scheme fields.value_in fields.source_in (now - secs)
    let trig ← pyGe count fields.min_count
    if trig then pure (some count) else pure none
  else
    pure none

def evalAlert (db : DB) (now : Int) (alert : AlertRec) : Except PyErr (Option Nat) :=
  evalAlertFromRule db now (extract_rule alert.ruleParse)

/-- `evaluate_alerts` from `app/services/alerts/__init__.py`: evaluate every
enabled alert in order, collect one event (with the matched count) per
triggered alert, and return the events to be committed together with the
triggered count.  An uncaught exception in any alert aborts the pass before
the commit. -/
def evaluate_alerts (db : DB) (alerts : List AlertRec) (now : Int) :
    Except PyErr (List EventRec × Nat) :=
  (alerts.filter (fun a => a.enabled)).foldlM
    (fun (acc : List EventRec × Nat) alert => do
      match ← evalAlert db now alert with
      | some count => pure (acc.1 ++ [EventRec.mk alert.id count], acc.2 + 1)
      | none => pure acc)
    ([], 0)

/-- A rule that is complete (scheme, accepted values, source list all
present and truthy) but uses the unsupported window period `"5m"`. -/
def badPeriodRule : YVal :=
  .map [("when", .map [("all", .list
    [ .map [("scheme", .str "simple"), ("value_in", .list [.int 93])],
      .map [("source_in", .list [.str "X"])],
      .map [("window", .map [("period", .str "5m")])] ])])]

def badAlert : AlertRec :=
  { id := 1, enabled := true, ruleParse := some badPeriodRule, last_eval_at := none }

def emptyDB : DB :=
  { sources := [], items := [], gem := [], runs := [], nextItemId := 1, nextSourceId := 1 }

/-- C6, counterexample: an enabled alert whose rule parses and has all
required fields but an unsupported window period (`"5m"`) makes
`evaluate_alerts` raise `ValueError` (from `_parse_period`) instead of
degrading to a never-triggering alert. -/
theorem evaluate_alerts_raises_counterexample :
    evaluate_alerts emptyDB [badAlert] 0 = .error (.valueErrUnsupportedPeriod "5m") := by
  rfl

lemma evalAlertFromRule_empty_map (db : DB) (now : Int) :
    evalAlertFromRule db now (.map []) = .ok none := rfl

lemma evalAlert_trivial (db : DB) (now : Int) (a : AlertRec)
    (h : extract_rule a.ruleParse = .map []) : evalAlert db now a = .ok none := by
  unfold evalAlert
  rw [h]
  exact evalAlertFromRule_empty_map db now

lemma evaluate_alerts_fold_trivial (db : DB) (now : Int) (l : List AlertRec)
    (acc : List EventRec × Nat)
    (h : ∀ a ∈ l, extract_rule a.ruleParse = .map []) :
    l.foldlM
      (fun (acc : List EventRec × Nat) alert => do
        match ← evalAlert db now alert with
        | some count => pure (acc.1 ++ [EventRec.mk alert.id count], acc.2 + 1)
        | none => pure acc)
      acc = .ok acc := by
  induction l generalizing acc with
  | nil => rfl
  | cons a rest ih =>
    rw [List.foldlM_cons]
    have ha : evalAlert db now a = .ok none := evalAlert_trivial db now a (h a (by simp))
    simp only [ha]
    exact ih acc (fun a' ha' => h a' (by simp [ha']))

/-- A rule missing `scheme` whose `window` condition value is not a
mapping: `win.get("period", ...)` raises `AttributeError` before the
missing-required-fields check is reached. -/
def missingSchemeWindowRule : YVal :=
  .map [("when", .map [("all", .list [.map [("window", .int 5)]])])]

/-- A rule whose condition entry is not a container: `"scheme" in cond`
raises `TypeError`. -/
def intCondRule : YVal :=
  .map [("when", .map [("all", .list [.int 42])])]

def missingSchemeWindowAlert : AlertRec :=
  { id := 3, enabled := true, ruleParse := some missingSchemeWindowRule,
    last_eval_at := none }

def intCondAlert : AlertRec :=
  { id := 4, enabled := true, ruleParse := some intCondRule, last_eval_at := none }

/-- A rule with scheme and accepted values but no source allow-list: its
condition list processes cleanly, the required-fields test fails, and the
alert is skipped. -/
def missingSourceAlert : AlertRec :=
  { id := 5, enabled := true,
    ruleParse := some (.map [("when", .map [("all", .list
      [.map [("scheme", .str "simple"), ("value_in", .list [.int 93])]])])]),
    last_eval_at := none }

lemma exbind_ok {ε α β : Type} (a : α) (f : α → Except ε β) :
    ((Except.ok a : Except ε α) >>= f) = f a := rfl

/-- C6, amended: rule text that fails YAML parsing or parses to a falsy
document is treated as zero conditions — the alert never triggers and
nothing is raised; and whenever the condition list of a parsed rule
processes without a Python error, an alert missing any of scheme, accepted
values or source list is skipped without querying, triggering or raising.
But malformed rule content can make `evaluate_alerts` raise: an
otherwise-complete rule with an unsupported window period (`"5m"`) raises
`ValueError`, a rule whose `window` condition value is not a mapping raises
`AttributeError` even though its scheme is missing, and a non-container
condition entry raises `TypeError`. -/
theorem evaluate_alerts_malformed_degrades :
    (∀ (db : DB) (now : Int) (alerts : List AlertRec),
        (∀ a ∈ alerts, a.ruleParse = none ∨
           ∃ v, a.ruleParse = some v ∧ ytruthy v = false) →
        evaluate_alerts db alerts now = .ok ([], 0))
    ∧ (∀ (db : DB) (now : Int) (a : AlertRec) (whenV conditions : YVal)
        (condList : List YVal) (fields : RuleFields),
        yget (extract_rule a.ruleParse) "when" (.map []) = .ok whenV →
        yget whenV "all" (.list []) = .ok conditions →
        yiter conditions = .ok condList →
        condList.foldlM applyCond initRuleFields = .ok fields →
        (ytruthy fields.scheme && ytruthy fields.value_in
          && ytruthy fields.source_in) = false →
        evalAlert db now a = .ok none)
    ∧ evaluate_alerts emptyDB [missingSchemeWindowAlert] 0 = .error .attrErr
    ∧ evaluate_alerts emptyDB [intCondAlert] 0 = .error .typeErr
    ∧ evaluate_alerts emptyDB [badAlert] 0 = .error (.valueErrUnsupportedPeriod "5m") := by
  refine ⟨?_, ?_, rfl, rfl, rfl⟩
  · intro db now alerts h
    unfold evaluate_alerts
    apply evaluate_alerts_fold_trivial
    intro a ha
    have := h a (List.mem_filter.1 ha).1
    rcases this with h' | ⟨v, hv, hvf⟩
    · simp [extract_rule, h']
    · simp [extract_rule, hv, hvf]
  · intro db now a whenV conditions condList fields h1 h2 h3 h4 h5
    simp only [evalAlert, evalAlertFromRule, h1, exbind_ok]
    simp only [h2, exbind_ok]
    simp only [h3, exbind_ok]
    simp only [h4, exbind_ok]
    rw [h5]
    rfl

/-- Witness for `evaluate_alerts_malformed_degrades`: a rule with scheme and
accepted values but no source allow-list processes cleanly and is skipped
without raising. -/
theorem evaluate_alerts_malformed_degrades_witness :
    evalAlert emptyDB 0 missingSourceAlert = .ok none :=
  evaluate_alerts_malformed_degrades.2.1 emptyDB 0 missingSourceAlert
    (.map [("all", .list [.map [("scheme", .str "simple"),
      ("value_in", .list [.int 93])]])])
    (.list [.map [("scheme", .str "simple"), ("value_in", .list [.int 93])]])
    [.map [("scheme", .str "simple"), ("value_in", .list [.int 93])]]
    { scheme := .str "simple", value_in := .list [.int 93], source_in := .list [],
      period := .str "24h", min_count := .int 1 }
    rfl rfl rfl rfl rfl

/-! ## Gematria rollups (`app/services/analytics/gematria_rollups.py`)

Datetimes are whole seconds (so `replace(microsecond=0)` is the identity on
them); trend-bucket boundaries, which Python computes as fractional-second
datetimes, are rationals, truncated to whole seconds on serialization.
Float arithmetic is modelled over `ℚ` (`math.sqrt` by `Rat.sqrt`, which
agrees on perfect squares; Python `round` by half-to-even rounding). -/

inductive RollupError where
  | unknownScheme (scheme : String)
  | nonPositiveWindow
deriving DecidableEq, Repr

def DEFAULT_MAX_TOP_VALUES : Nat := 8

def DEFAULT_TREND_BUCKETS : Nat := 12

/-- `ROLLUP_TTL_SECONDS = int(os.getenv("GEMATRIA_ROLLUP_TTL", "900"))`,
with the default value. -/
def ROLLUP_TTL_SECONDS : Int := 900

def scopeKey : Option Nat → String
  | none => "global"
  | some sid => "source:" ++ toString sid

/-- `_window_bounds`: raises `ValueError` unless the window is positive. -/
def windowBounds (windowHours : Int) (now : Int) : Except RollupError (Int × Int) :=
  if windowHours ≤ 0 then .error .nonPositiveWindow
  else .ok (now - windowHours * 3600, now)

/-- Python `round(x, d)` (half to even). -/
def roundN (q : ℚ) (d : Nat) : ℚ := (roundHalfEven (q * 10 ^ d) : ℚ) / 10 ^ d

/-- `_percentile` on an ascending value list: linear interpolation on the
fractional rank; a single value is returned as-is. -/
def percentile (sorted_values : List Int) (p : ℚ) : Option ℚ :=
  match sorted_values with
  | [] => none
  | [v] => some (v : ℚ)
  | _ =>
    let n := sorted_values.length
    let rank : ℚ := p * ((n : ℚ) - 1)
    let lower : Nat := Int.toNat ⌊rank⌋
    let upper : Nat := Int.toNat ⌈rank⌉
    let lower_val : ℚ := (sorted_values.getD lower 0 : Int)
    let upper_val : ℚ := (sorted_values.getD upper 0 : Int)
    if lower = upper then some lower_val
    else some (lower_val + (rank - (lower : ℚ)) * (upper_val - lower_val))

/-- `_pearson`: `None` for fewer than two points or zero variance; the
value is rounded to 4 places. -/
def pearson (xs ys : List ℚ) : Option ℚ :=
  if xs.length ≠ ys.length ∨ xs.length < 2 then none
  else
    let n : ℚ := xs.length
    let mean_x := xs.sum / n
    let mean_y := ys.sum / n
    let var_x := (xs.map (fun v => (v - mean_x) ^ 2)).sum
    let var_y := (ys.map (fun v => (v - mean_y) ^ 2)).sum
    if var_x = 0 ∨ var_y = 0 then none
    else
      let cov := ((xs.zip ys).map (fun q => (q.1 - mean_x) * (q.2 - mean_y))).sum
      some (roundN (cov / Rat.sqrt (var_x * var_y)) 4)

structure TrendBucket where
  bucket_start : ℚ
  bucket_end : ℚ
  count : Nat
  sum : ℚ
deriving DecidableEq, Repr

def setLastEnd : List TrendBucket → Int → List TrendBucket
  | [], _ => []
  | [b], e => [{ b with bucket_end := (e : ℚ) }]
  | b :: rest, e => b :: setLastEnd rest e

/-- `_trend_buckets`: up to 12 equal buckets over the window, the last
clamped to the window end. -/
def trendBuckets (start e : Int) (bucket_count : Nat) : List TrendBucket :=
  let bc := max 1 (min bucket_count DEFAULT_TREND_BUCKETS)
  let total_seconds : ℚ := max ((e - start : Int) : ℚ) 1
  let bucket_seconds := total_seconds / (bc : ℚ)
  let buckets := (List.range bc).map (fun index =>
    let bend : ℚ := (start : ℚ) + bucket_seconds * ((index : ℚ) + 1)
    { bucket_start := (start : ℚ) + bucket_seconds * (index : ℚ),
      bucket_end := if bend ≤ (e : ℚ) then bend else (e : ℚ),
      count := 0, sum := 0 : TrendBucket })
  setLastEnd buckets e

structure SampleRec where
  item_id : Nat
  title : String
  lang : String
  source_id : Nat
  sourceName : String
deriving DecidableEq, Repr

structure TopValueRec where
  value : Int
  count : Nat
  share : ℚ
  samples : List SampleRec
deriving DecidableEq, Repr

structure Percentiles where
  p50 : Option ℚ
  p90 : Option ℚ
  p99 : Option ℚ
deriving DecidableEq, Repr

structure SummaryRec where
  total_items : Nat
  unique_sources : Nat
  sum : ℚ
  avg : ℚ
  min : Option Int
  max : Option Int
  percentiles : Percentiles
deriving DecidableEq, Repr

structure TrendEntry where
  bucket_start : Int
  bucket_end : Int
  count : Nat
  avg : ℚ
deriving DecidableEq, Repr

structure SourceBreakdownEntry where
  source_id : Nat
  name : String
  count : Nat
  avg : ℚ
  priority : Option Int
deriving DecidableEq, Repr

structure Correlations where
  value_vs_title_length : Option ℚ
  value_vs_source_priority : Option ℚ
deriving DecidableEq, Repr

/-- The rollup payload JSON of §4.8 (`meta` flattened into two fields). -/
structure Payload where
  scheme : String
  scope : String
  window_hours : Int
  window_start : Int
  window_end : Int
  summary : SummaryRec
  top_values : List TopValueRec
  trend : List TrendEntry
  source_breakdown : List SourceBreakdownEntry
  correlations : Correlations
  meta_total_values : Nat
  meta_generated_at : Int
deriving DecidableEq, Repr

/-- One row of the gematria/item/source join of `compute_rollup`. -/
structure JoinRow where
  value : Int
  item_id : Nat
  title : String
  fetched : Int
  lang : String
  src_id : Nat
  src_name : String
  priority : Option Int
deriving DecidableEq, Repr

def mkJoinRow (ws : Int) (g : GemRow) (it : ItemRec) (src : SourceRec) : JoinRow :=
  { value := (g.value : Int),
    item_id := g.item_id,
    title := it.title.getD "",
    fetched := it.fetched_at,
    lang := it.lang.getD "",
    src_id := src.id,
    src_name := if src.name = "" then "Source " ++ toString src.id else src.name,
    priority := src.priority }

/-- The join query of `compute_rollup` (scheme match, `fetched_at` within
the window, optional source restriction); `ws` is the window start used by
the `row[3] or row[4] or window_start` fallback, which is the `fetched_at`
column itself since that column is non-null. -/
def joinRows (db : DB) (scheme : String) (ws we : Int) (source_id : Option Nat) :
    List JoinRow :=
  db.gem.filterMap (fun g =>
    if g.scheme = scheme then
      match db.items.find? (fun it => it.id = g.item_id) with
      | some it =>
        if ws ≤ it.fetched_at ∧ it.fetched_at ≤ we then
          match db.sources.find? (fun s => s.id = it.source_id) with
          | some src =>
            match source_id with
            | some sid => if src.id = sid then some (mkJoinRow ws g it src) else none
            | none => some (mkJoinRow ws g it src)
          | none => none
        else none
      | none => none
    else none)

/-- Per-source accumulator of `compute_rollup` (`source_stats`). -/
structure SrcStat where
  src_id : Nat
  count : Nat
  sum : ℚ
  name : String
  priority : Option Int
deriving DecidableEq, Repr

def updateSrcStats (acc : List SrcStat) (r : JoinRow) : List SrcStat :=
  match acc with
  | [] => [{ src_id := r.src_id, count := 1, sum := (r.value : ℚ), name := r.src_name,
             priority := r.priority }]
  | s :: rest =>
    if s.src_id = r.src_id then
      { s with count := s.count + 1,
               sum := s.sum + (r.value : ℚ),
               name := r.src_name,
               priority := if r.priority.isSome then r.priority else s.priority } :: rest
    else s :: updateSrcStats rest r

def sampleOf (r : JoinRow) : SampleRec :=
  { item_id := r.item_id, title := r.title, lang := r.lang, source_id := r.src_id,
    sourceName := r.src_name }

/-- `top_samples[value]`: at most 3 sample items per value, in row order. -/
def updateSamples (acc : List (Int × List SampleRec)) (r : JoinRow) :
    List (Int × List SampleRec) :=
  match acc with
  | [] => [(r.value, [sampleOf r])]
  | p :: rest =>
    if p.1 = r.value then
      (if p.2.length < 3 then (p.1, p.2 ++ [sampleOf r]) else p) :: rest
    else p :: updateSamples rest r

/-- `Counter(values).most_common(n)`: by count descending, ties in
first-occurrence order (the stable sort matches `Counter`). -/
def mostCommon (values : List Int) (n : Nat) : List (Int × Nat) :=
  (List.insertionSort (fun a b : Int × Nat => b.2 ≤ a.2)
    ((pyDedup values).map (fun v => (v, values.count v)))).take n

def pyMin (l : List Int) : Option Int :=
  l.foldl (fun acc v =>
    match acc with
    | none => some v
    | some m => some (min m v)) none

def pyMax (l : List Int) : Option Int :=
  l.foldl (fun acc v =>
    match acc with
    | none => some v
    | some m => some (max m v)) none

/-- `int(min(len(buckets) - 1, max(0, seconds // bucket_seconds)))`. -/
def bucketIndex (nb : Nat) (bucket_seconds seconds : ℚ) : Nat :=
  Int.toNat (min ((nb : Int) - 1) (max 0 ⌊seconds / bucket_seconds⌋))

def bumpAt : List TrendBucket → Nat → Int → List TrendBucket
  | [], _, _ => []
  | b :: rest, 0, v => { b with count := b.count + 1, sum := b.sum + (v : ℚ) } :: rest
  | b :: rest, n + 1, v => b :: bumpAt rest n v

/-- The ascending value sort `sorted(values)`. -/
def sortedValues (values : List Int) : List Int :=
  List.insertionSort (fun a b : Int => a ≤ b) values

/-- `sorted(source_stats.items(), key=lambda item: (-count, src_id))`. -/
def srcStatOrder (a b : SrcStat) : Prop :=
  b.count < a.count ∨ (a.count = b.count ∧ a.src_id ≤ b.src_id)

instance : DecidableRel srcStatOrder := fun a b => by
  unfold srcStatOrder
  infer_instance

/-- `compute_rollup` from `app/services/analytics/gematria_rollups.py`:
validates the scheme against the registry and the window before the query,
then aggregates the joined rows into the payload. -/
def compute_rollup (db : DB) (scheme : String) (window_hours : Int)
    (source_id : Option Nat) (now : Int) : Except RollupError Payload :=
  if (SCHEMES.find? (fun p => p.1 = scheme)).isNone then
    .error (.unknownScheme scheme)
  else
    match windowBounds window_hours now with
    | .error e => .error e
    | .ok (window_start, window_end) =>
      let rows := joinRows db scheme window_start window_end source_id
      let values := rows.map (fun r => r.value)
      let fetched := rows.map (fun r => r.fetched)
      let title_lengths := rows.map (fun r => (r.title.length : ℚ))
      let priority_pairs := rows.filterMap
        (fun r => r.priority.map (fun p => ((r.value : ℚ), (p : ℚ))))
      let source_stats := rows.foldl updateSrcStats []
      let top_samples := rows.foldl updateSamples []
      let total_items := values.length
      let sorted := sortedValues values
      let vsum : ℚ := (values.map (fun v => (v : ℚ))).sum
      let summary : SummaryRec :=
        { total_items := total_items,
          unique_sources := source_stats.length,
          sum := vsum,
          avg := if total_items ≠ 0 then vsum / (total_items : ℚ) else 0,
          min := pyMin values,
          max := pyMax values,
          percentiles :=
            { p50 := percentile sorted (1/2),
              p90 := percentile sorted (9/10),
              p99 := percentile sorted (99/100) } }
      let top_values := (mostCommon values DEFAULT_MAX_TOP_VALUES).map (fun p =>
        { value := p.1,
          count := p.2,
          share := if total_items ≠ 0 then roundN ((p.2 : ℚ) / (total_items : ℚ)) 4 else 0,
          samples := ((top_samples.find? (fun q => q.1 = p.1)).map (fun q => q.2)).getD []
          : TopValueRec })
      let trend : List TrendEntry :=
        if values.isEmpty then []
        else
          let buckets0 := trendBuckets window_start window_end
            (Int.toNat (min (DEFAULT_TREND_BUCKETS : Int)
              (if window_hours ≠ 0 then window_hours else 1)))
          let nb := buckets0.length
          let bucket_seconds : ℚ :=
            max (((window_end - window_start : Int) : ℚ) / (nb : ℚ)) 1
          let filled := (values.zip fetched).foldl
            (fun bs p =>
              bumpAt bs (bucketIndex nb bucket_seconds ((p.2 - window_start : Int) : ℚ)) p.1)
            buckets0
          filled.map (fun b =>
            { bucket_start := ⌊b.bucket_start⌋,
              bucket_end := ⌊b.bucket_end⌋,
              count := b.count,
              avg := if b.count ≠ 0 then roundN (b.sum / (b.count : ℚ)) 2 else 0 })
      let source_breakdown := (List.insertionSort srcStatOrder source_stats).map (fun s =>
        { source_id := s.src_id,
          name := s.name,
          count := s.count,
          avg := if s.count ≠ 0 then roundN (s.sum / (s.count : ℚ)) 2 else 0,
          priority := s.priority : SourceBreakdownEntry })
      let correlations : Correlations :=
        { value_vs_title_length :=
            if ¬ values.isEmpty then
              pearson (values.map (fun v => (v : ℚ))) title_lengths
            else none,
          value_vs_source_priority :=
            if ¬ priority_pairs.isEmpty then
              pearson (priority_pairs.map (fun q => q.1)) (priority_pairs.map (fun q => q.2))
            else none }
      .ok
        { scheme := scheme,
          scope := scopeKey source_id,
          window_hours := window_hours,
          window_start := window_start,
          window_end := window_end,
          summary := summary,
          top_values := top_values,
          trend := trend,
          source_breakdown := source_breakdown,
          correlations := correlations,
          meta_total_values := total_items,
          meta_generated_at := now }

/-- A `GematriaRollup` row; `payload = none` models a falsy stored payload
(`NULL`/empty JSON) — `compute_rollup` always yields a truthy payload,
stored as `some`. -/
structure RollupRow where
  scope : String
  window_hours : Int
  scheme : String
  computed_at : Int
  payload : Option Payload
deriving DecidableEq, Repr

structure RollupState where
  db : DB
  rollups : List RollupRow
deriving DecidableEq, Repr

def findRollup (rs : List RollupRow) (scope : String) (wh : Int) (scheme : String) :
    Option RollupRow :=
  rs.find? (fun r => r.scope == scope && r.window_hours == wh && r.scheme == scheme)

/-- `_upsert_rollup`: update the row for (scope, window_hours, scheme) in
place when one exists, else insert a new row — at most one row per key. -/
def upsertRollup (rs : List RollupRow) (scope : String) (wh : Int) (scheme : String)
    (payload : Option Payload) (computed_at : Int) : List RollupRow :=
  match rs with
  | [] => [{ scope := scope, window_hours := wh, scheme := scheme,
             computed_at := computed_at, payload := payload }]
  | r :: rest =>
    if r.scope == scope && r.window_hours == wh && r.scheme == scheme then
      { r with payload := payload, computed_at := computed_at } :: rest
    else r :: upsertRollup rest scope wh scheme payload computed_at

/-- `get_rollup`: return the cached payload verbatim when a row exists, no
refresh is forced, the age is within the TTL and the stored payload is
truthy; otherwise recompute, upsert, commit and return the fresh payload. -/
def get_rollup (st : RollupState) (scheme : String) (window_hours : Int)
    (source_id : Option Nat) (now : Int) (refresh : Bool) :
    Except RollupError (RollupState × Payload) :=
  let scope := scopeKey source_id
  let hit : Option Payload :=
    match findRollup st.rollups scope window_hours scheme with
    | some r =>
      if refresh then none
      else if now - r.computed_at ≤ ROLLUP_TTL_SECONDS then r.payload
      else none
    | none => none
  match hit with
  | some p => .ok (st, p)
  | none =>
    match compute_rollup st.db scheme window_hours source_id now with
    | .error e => .error e
    | .ok p =>
      .ok ({ st with
             rollups := upsertRollup st.rollups scope window_hours scheme (some p) now }, p)

def refreshSourcesLoop (scheme : String) (window : Int) (now : Int) :
    RollupState → List (Option Nat) → Except RollupError RollupState
  | st, [] => .ok st
  | st, sid :: rest =>
    match compute_rollup st.db scheme window sid now with
    | .error e => .error e
    | .ok payload =>
      let st2 : RollupState :=
        { st with
          rollups := upsertRollup st.rollups (scopeKey sid) window scheme (some payload) now }
      refreshSourcesLoop scheme window now st2 rest

def refreshWindowsLoop (scheme : String) (now : Int) (sources : List (Option Nat)) :
    RollupState → List Int → Except RollupError RollupState
  | st, [] => .ok st
  | st, w :: rest =>
    match refreshSourcesLoop scheme w now st sources with
    | .error e => .error e
    | .ok st' => refreshWindowsLoop scheme now sources st' rest

/-- `refresh_rollups`: recompute and upsert every (scheme, window, scope)
combination, committing once at the end; an exception aborts before the
commit. -/
def refresh_rollups (st : RollupState) (schemes : List String) (windows : List Int)
    (sources : List (Option Nat)) (now : Int) : Except RollupError RollupState :=
  match schemes with
  | [] => .ok st
  | scheme :: rest =>
    match refreshWindowsLoop scheme now sources st windows with
    | .error e => .error e
    | .ok st' => refresh_rollups st' rest windows sources now

lemma compute_rollup_unknown (db : DB) (scheme : String) (wh : Int) (sid : Option Nat)
    (now : Int) (h : SCHEMES.find? (fun p => p.1 = scheme) = none) :
    compute_rollup db scheme wh sid now = .error (.unknownScheme scheme) := by
  unfold compute_rollup
  rw [h]
  rfl

lemma compute_rollup_badwindow (db : DB) (scheme : String) (wh : Int) (sid : Option Nat)
    (now : Int) (h1 : (SCHEMES.find? (fun p => p.1 = scheme)).isSome) (h2 : wh ≤ 0) :
    compute_rollup db scheme wh sid now = .error .nonPositiveWindow := by
  obtain ⟨m, hm⟩ := Option.isSome_iff_exists.mp h1
  unfold compute_rollup
  rw [hm]
  simp only [Option.isNone_some, Bool.false_eq_true, if_false, windowBounds]
  rw [if_pos h2]

lemma get_rollup_hit (st : RollupState) (scheme : String) (wh : Int) (sid : Option Nat)
    (now : Int) (r : RollupRow) (p : Payload)
    (hfind : findRollup st.rollups (scopeKey sid) wh scheme = some r)
    (hp : r.payload = some p)
    (httl : now - r.computed_at ≤ ROLLUP_TTL_SECONDS) :
    get_rollup st scheme wh sid now false = .ok (st, p) := by
  simp only [get_rollup, hfind, Bool.false_eq_true, if_false]
  rw [if_pos httl, hp]

lemma get_rollup_recompute (st : RollupState) (scheme : String) (wh : Int)
    (sid : Option Nat) (now : Int) (refresh : Bool)
    (h : (match findRollup st.rollups (scopeKey sid) wh scheme with
          | some r =>
            if refresh then none
            else if now - r.computed_at ≤ ROLLUP_TTL_SECONDS then r.payload else none
          | none => none) = (none : Option Payload)) :
    get_rollup st scheme wh sid now refresh =
      (compute_rollup st.db scheme wh sid now).map (fun p =>
        ({ st with
           rollups := upsertRollup st.rollups (scopeKey sid) wh scheme (some p) now }, p)) := by
  simp only [get_rollup]
  rw [h]
  cases hc : compute_rollup st.db scheme wh sid now <;> simp [Except.map, hc]

def rollupKeys (rs : List RollupRow) : List (String × Int × String) :=
  rs.map (fun r => (r.scope, r.window_hours, r.scheme))

/-- The key test of `upsertRollup` holds on the in-place-updated row. -/
lemma upsert_cond_updated (r : RollupRow) (scope : String) (wh : Int) (scheme : String)
    (p : Option Payload) (t : Int)
    (hcond : (r.scope == scope && r.window_hours == wh && r.scheme == scheme) = true) :
    (({ r with payload := p, computed_at := t } : RollupRow).scope == scope
      && ({ r with payload := p, computed_at := t } : RollupRow).window_hours == wh
      && ({ r with payload := p, computed_at := t } : RollupRow).scheme == scheme) = true :=
  hcond

lemma upsert_find (rs : List RollupRow) (scope : String) (wh : Int) (scheme : String)
    (p : Option Payload) (t : Int) :
    ∃ r', findRollup (upsertRollup rs scope wh scheme p t) scope wh scheme = some r'
      ∧ r'.payload = p ∧ r'.computed_at = t := by
  induction rs with
  | nil =>
    refine ⟨{ scope := scope, window_hours := wh, scheme := scheme,
              computed_at := t, payload := p }, ?_, rfl, rfl⟩
    simp [upsertRollup, findRollup, List.find?]
  | cons r rest ih =>
    by_cases hcond : (r.scope == scope && r.window_hours == wh && r.scheme == scheme) = true
    · refine ⟨{ r with payload := p, computed_at := t }, ?_, rfl, rfl⟩
      have hup : upsertRollup (r :: rest) scope wh scheme p t =
          { r with payload := p, computed_at := t } :: rest := by
        simp [upsertRollup, hcond]
      rw [hup]
      unfold findRollup
      have hc2 := upsert_cond_updated r scope wh scheme p t hcond
      simp only [List.find?, hc2]
    · obtain ⟨r', h1, h2, h3⟩ := ih
      refine ⟨r', ?_, h2, h3⟩
      have hup : upsertRollup (r :: rest) scope wh scheme p t =
          r :: upsertRollup rest scope wh scheme p t := by
        simp [upsertRollup, hcond]
      rw [hup]
      unfold findRollup
      have hc2 : (r.scope == scope && r.window_hours == wh && r.scheme == scheme) = false :=
        Bool.eq_false_iff.mpr hcond
      simp only [List.find?, hc2]
      exact h1

lemma upsert_keys_sub (rs : List RollupRow) (scope : String) (wh : Int) (scheme : String)
    (p : Option Payload) (t : Int) :
    ∀ k ∈ rollupKeys (upsertRollup rs scope wh scheme p t),
      k ∈ rollupKeys rs ∨ k = (scope, wh, scheme) := by
  induction rs with
  | nil =>
    intro k hk
    simp [upsertRollup, rollupKeys] at hk
    exact Or.inr hk
  | cons r rest ih =>
    intro k hk
    by_cases hcond : (r.scope == scope && r.window_hours == wh && r.scheme == scheme) = true
    · have hup : upsertRollup (r :: rest) scope wh scheme p t =
          { r with payload := p, computed_at := t } :: rest := by
        simp [upsertRollup, hcond]
      rw [hup, rollupKeys, List.map_cons] at hk
      rcases List.mem_cons.1 hk with h | h
      · exact Or.inl (by rw [rollupKeys, List.map_cons]; exact h ▸ List.mem_cons_self _ _)
      · exact Or.inl (by rw [rollupKeys, List.map_cons]; exact List.mem_cons_of_mem _ h)
    · have hup : upsertRollup (r :: rest) scope wh scheme p t =
          r :: upsertRollup rest scope wh scheme p t := by
        simp [upsertRollup, hcond]
      rw [hup, rollupKeys, List.map_cons] at hk
      rcases List.mem_cons.1 hk with h | h
      · exact Or.inl (by rw [rollupKeys, List.map_cons]; exact h ▸ List.mem_cons_self _ _)
      · rcases ih k h with h' | h'
        · exact Or.inl (by rw [rollupKeys, List.map_cons]; exact List.mem_cons_of_mem _ h')
        · exact Or.inr h'

lemma upsert_keys_nodup (rs : List RollupRow) (scope : String) (wh : Int) (scheme : String)
    (p : Option Payload) (t : Int) :
    (rollupKeys rs).Nodup → (rollupKeys (upsertRollup rs scope wh scheme p t)).Nodup := by
  induction rs with
  | nil =>
    intro _
    simp [upsertRollup, rollupKeys]
  | cons r rest ih =>
    intro h
    by_cases hcond : (r.scope == scope && r.window_hours == wh && r.scheme == scheme) = true
    · have hup : upsertRollup (r :: rest) scope wh scheme p t =
          { r with payload := p, computed_at := t } :: rest := by
        simp [upsertRollup, hcond]
      rw [hup]
      rw [rollupKeys, List.map_cons, List.nodup_cons] at h ⊢
      exact h
    · have hup : upsertRollup (r :: rest) scope wh scheme p t =
          r :: upsertRollup rest scope wh scheme p t := by
        simp [upsertRollup, hcond]
      rw [hup]
      rw [rollupKeys, List.map_cons, List.nodup_cons] at h ⊢
      refine ⟨?_, ih h.2⟩
      intro hmem
      rcases upsert_keys_sub rest scope wh scheme p t _ hmem with h' | h'
      · exact h.1 h'
      · apply hcond
        have h1 : r.scope = scope := congrArg Prod.fst h'
        have h23 := congrArg Prod.snd h'
        have h2 : r.window_hours = wh := congrArg Prod.fst h23
        have h3 : r.scheme = scheme := congrArg Prod.snd h23
        simp [h1, h2, h3]

/-- C10: `compute_rollup` raises `ValueError` — before touching the store —
when the scheme is not in the registry or when the window is not positive
(the scheme check comes first); the errors propagate through `get_rollup`
(which finds no cached row for such keys) and `refresh_rollups`.  The
result for an unknown scheme is the same error for every store, i.e. no
query is involved. -/
theorem compute_rollup_validation :
    (∀ (db : DB) (scheme : String) (wh : Int) (sid : Option Nat) (now : Int),
        SCHEMES.find? (fun p => p.1 = scheme) = none →
        compute_rollup db scheme wh sid now = .error (.unknownScheme scheme))
    ∧ (∀ (db : DB) (scheme : String) (wh : Int) (sid : Option Nat) (now : Int),
        (SCHEMES.find? (fun p => p.1 = scheme)).isSome → wh ≤ 0 →
        compute_rollup db scheme wh sid now = .error .nonPositiveWindow)
    ∧ (∀ (st : RollupState) (scheme : String) (wh : Int) (sid : Option Nat) (now : Int)
        (refresh : Bool),
        SCHEMES.find? (fun p => p.1 = scheme) = none →
        findRollup st.rollups (scopeKey sid) wh scheme = none →
        get_rollup st scheme wh sid now refresh = .error (.unknownScheme scheme))
    ∧ (∀ (st : RollupState) (scheme : String) (rest : List String) (w : Int)
        (ws : List Int) (s : Option Nat) (srcs : List (Option Nat)) (now : Int),
        SCHEMES.find? (fun p => p.1 = scheme) = none →
        refresh_rollups st (scheme :: rest) (w :: ws) (s :: srcs) now =
          .error (.unknownScheme scheme)) := by
  refine ⟨compute_rollup_unknown, compute_rollup_badwindow, ?_, ?_⟩
  · intro st scheme wh sid now refresh hs hfind
    rw [get_rollup_recompute st scheme wh sid now refresh (by rw [hfind]),
      compute_rollup_unknown st.db scheme wh sid now hs]
    rfl
  · intro st scheme rest w ws s srcs now h
    have hc := compute_rollup_unknown st.db scheme w s now h
    simp [refresh_rollups, refreshWindowsLoop, refreshSourcesLoop, hc]

/-- Witness for `compute_rollup_validation`: the registry has no scheme
named `ordinal`, so `compute_rollup` rejects it before any query. -/
theorem compute_rollup_validation_witness :
    compute_rollup emptyDB "ordinal" 24 none 0 = .error (.unknownScheme "ordinal") :=
  compute_rollup_validation.1 emptyDB "ordinal" 24 none 0 rfl

/-- C4: `get_rollup` behaviour.  (a) With `refresh` unset, a cached row
within the TTL (default 900 s) with a truthy payload is returned verbatim,
without touching the store, and the result is identical for any two
underlying gematria stores (byte-identical across calls even if data
changed).  (b)–(d) When the row is absent, `refresh` is forced, or the row
is stale, the payload is recomputed, upserted and returned fresh.  (e) The
upsert updates in place when a row for the key exists, else inserts, so a
store with unique keys keeps at most one row per (scope, window, scheme). -/
theorem get_rollup_cache_behavior :
    (∀ (gdb1 gdb2 : DB) (rs : List RollupRow) (scheme : String) (wh : Int)
        (sid : Option Nat) (now : Int) (r : RollupRow) (p : Payload),
        findRollup rs (scopeKey sid) wh scheme = some r →
        r.payload = some p →
        now - r.computed_at ≤ ROLLUP_TTL_SECONDS →
        get_rollup ⟨gdb1, rs⟩ scheme wh sid now false = .ok (⟨gdb1, rs⟩, p)
        ∧ get_rollup ⟨gdb2, rs⟩ scheme wh sid now false = .ok (⟨gdb2, rs⟩, p))
    ∧ (∀ (st : RollupState) (scheme : String) (wh : Int) (sid : Option Nat) (now : Int)
        (refresh : Bool),
        findRollup st.rollups (scopeKey sid) wh scheme = none →
        get_rollup st scheme wh sid now refresh =
          (compute_rollup st.db scheme wh sid now).map (fun p =>
            ({ st with
               rollups := upsertRollup st.rollups (scopeKey sid) wh scheme (some p) now },
             p)))
    ∧ (∀ (st : RollupState) (scheme : String) (wh : Int) (sid : Option Nat) (now : Int),
        get_rollup st scheme wh sid now true =
          (compute_rollup st.db scheme wh sid now).map (fun p =>
            ({ st with
               rollups := upsertRollup st.rollups (scopeKey sid) wh scheme (some p) now },
             p)))
    ∧ (∀ (st : RollupState) (scheme : String) (wh : Int) (sid : Option Nat) (now : Int)
        (r : RollupRow),
        findRollup st.rollups (scopeKey sid) wh scheme = some r →
        ¬ (now - r.computed_at ≤ ROLLUP_TTL_SECONDS) →
        get_rollup st scheme wh sid now false =
          (compute_rollup st.db scheme wh sid now).map (fun p =>
            ({ st with
               rollups := upsertRollup st.rollups (scopeKey sid) wh scheme (some p) now },
             p)))
    ∧ (∀ (rs : List RollupRow) (scope : String) (wh : Int) (scheme : String)
        (p : Option Payload) (t : Int),
        ((rollupKeys rs).Nodup →
          (rollupKeys (upsertRollup rs scope wh scheme p t)).Nodup)
        ∧ ∃ r', findRollup (upsertRollup rs scope wh scheme p t) scope wh scheme = some r'
            ∧ r'.payload = p ∧ r'.computed_at = t) := by
  refine ⟨?_, ?_, ?_, ?_, ?_⟩
  · intro gdb1 gdb2 rs scheme wh sid now r p hfind hp httl
    exact ⟨get_rollup_hit ⟨gdb1, rs⟩ scheme wh sid now r p hfind hp httl,
           get_rollup_hit ⟨gdb2, rs⟩ scheme wh sid now r p hfind hp httl⟩
  · intro st scheme wh sid now refresh hfind
    exact get_rollup_recompute st scheme wh sid now refresh (by rw [hfind])
  · intro st scheme wh sid now
    refine get_rollup_recompute st scheme wh sid now true ?_
    cases hf : findRollup st.rollups (scopeKey sid) wh scheme <;> simp [hf]
  · intro st scheme wh sid now r hfind httl
    refine get_rollup_recompute st scheme wh sid now false ?_
    rw [hfind]
    simp [httl]
  · intro rs scope wh scheme p t
    exact ⟨fun h => upsert_keys_nodup rs scope wh scheme p t h,
           upsert_find rs scope wh scheme p t⟩

/-- A concrete trivial payload and cached rollup row for the C4 witness. -/
def payloadW : Payload :=
  { scheme := "simple", scope := "global", window_hours := 24, window_start := 0,
    window_end := 86400,
    summary := { total_items := 0, unique_sources := 0, sum := 0, avg := 0,
                 min := none, max := none,
                 percentiles := { p50 := none, p90 := none, p99 := none } },
    top_values := [], trend := [], source_breakdown := [],
    correlations := { value_vs_title_length := none, value_vs_source_priority := none },
    meta_total_values := 0, meta_generated_at := 86400 }

def rollW : RollupRow :=
  { scope := "global", window_hours := 24, scheme := "simple", computed_at := 86400,
    payload := some payloadW }

/-- Witness for `get_rollup_cache_behavior`: a cache hit one second after
the row was computed returns the stored payload verbatim. -/
theorem get_rollup_cache_behavior_witness :
    get_rollup ⟨emptyDB, [rollW]⟩ "simple" 24 none 86401 false =
      .ok (⟨emptyDB, [rollW]⟩, payloadW) :=
  (get_rollup_cache_behavior.1 emptyDB emptyDB [rollW] "simple" 24 none 86401 rollW
    payloadW rfl rfl (by decide)).1

end Watcher
